import Mathlib

/-!
# dump433: a verification development

A shallow embedding of `dump433.c` (an OOK pulse detector for RTLSDR devices) and
theorems about its frame detector (`detectFrame`), its sample buffer handoff
(`rtlsdrCallback`) and its magnitude computation (`computeMagnitudeVector`).

Conventions of the embedding.

* Memory blocks (`ctx->data`, `ctx->magnitude`, `ctx->maglut`, the driver chunk `buf`)
  are lists of naturals; an access outside a block is a `Fault`, so a run that ends in
  `Except.ok` performed no access outside its blocks.
* `int` variables are `Int`. The loop index `j` of `detectFrame` faults on signed
  overflow; its counters grow by at most one per iteration, so they stay in range as
  long as `j` does.
* `uint32_t` arithmetic that can wrap is written with an explicit `% 2^32`.
* The mutex and the condition variable are not modelled: `rtlsdrCallback` is the
  sequential effect of its critical section.
-/

namespace Dump433

/-! ## Constants of `dump433.c` -/

/-- Value of `#define MODES_DATA_LEN (16*16384)`. -/
def MODES_DATA_LEN : Nat := 16 * 16384

/-- Value of `#define MODES_PREAMBLE_US 8`. -/
def MODES_PREAMBLE_US : Nat := 8

/-- Value of `#define MODES_LONG_MSG_BITS 112`. -/
def MODES_LONG_MSG_BITS : Nat := 112

/-- Value of `#define MODES_FULL_LEN (MODES_PREAMBLE_US+MODES_LONG_MSG_BITS)`. -/
def MODES_FULL_LEN : Nat := MODES_PREAMBLE_US + MODES_LONG_MSG_BITS

/-- Value of `#define NSILENCE_MIN 225`. -/
def NSILENCE_MIN : Int := 225

/-- Value of `#define NON_MIN 30`. -/
def NON_MIN : Int := 30

/-- Value of `#define NOFF_MIN 12`. -/
def NOFF_MIN : Int := 12

/-- Value of `#define SILENCE_TOL 200`. -/
def SILENCE_TOL : Nat := 200

/-- Value of `#define SILENCE_MID 1000`. -/
def SILENCE_MID : Nat := 1000

/-- Value of `#define SILENCE_MAX (SILENCE_MID-SILENCE_TOL)`: the silence ceiling, 800. -/
def SILENCE_MAX : Nat := SILENCE_MID - SILENCE_TOL

/-- Value of `#define ON_TOL 0`. -/
def ON_TOL : Nat := 0

/-- Value of `#define ON_MID 30000`. -/
def ON_MID : Nat := 30000

/-- Value of `#define ON_MIN (ON_MID+ON_TOL)`: the on floor, 30000. -/
def ON_MIN : Nat := ON_MID + ON_TOL

/-- Value of `#define OFF_TOL 0`. -/
def OFF_TOL : Nat := 0

/-- Value of `#define OFF_MID 3000`. -/
def OFF_MID : Nat := 3000

/-- Value of `#define OFF_MAX (OFF_MID-OFF_TOL)`: the off ceiling, 3000. -/
def OFF_MAX : Nat := OFF_MID - OFF_TOL

/-- Largest value of a C `int` (32 bits). -/
def INT_MAX : Nat := 2 ^ 31 - 1

/-! ## Faults -/

/-- Ways a run of the C code leaves defined behaviour. -/
inductive Fault where
  /-- A read at index `idx` of a block that has no such element. -/
  | readOutOfBounds (idx : Nat)
  /-- A write at index `idx` of a block that has no such element. -/
  | writeOutOfBounds (idx : Nat)
  /-- An `int` incremented past `INT_MAX`. -/
  | signedOverflow
  /-- A `uint32_t` loop index wrapped modulo `2^32`, so the loop starts over. -/
  | indexWrap
deriving DecidableEq, Repr

/-! ## The frame detector, `detectFrame` -/

/-- Local variables of `detectFrame` (all declared `int`, all initialised to 0). -/
structure Detector where
  /-- Variable `state`: 0 Searching-Silence, 1 Counting-Pulse, 2 Counting-Gap. -/
  state : Int
  /-- Variable `nsilence`: length of the current silence run. -/
  nsilence : Int
  /-- Variable `nsilences`: longest silence run recorded so far. -/
  nsilences : Int
  /-- Variable `non`: length of the current pulse run. -/
  non : Int
  /-- Variable `nons`: total of pulse samples. -/
  nons : Int
  /-- Variable `noff`: length of the current gap run. -/
  noff : Int
  /-- Variable `noffs`: total of gap samples. -/
  noffs : Int
  /-- Variable `bit0`: number of bit events. -/
  bit0 : Int
deriving DecidableEq, Repr

/-- Values of the locals of `detectFrame` before the loop. -/
def Detector.init : Detector :=
  { state := 0, nsilence := 0, nsilences := 0, non := 0, nons := 0, noff := 0, noffs := 0,
    bit0 := 0 }

/-- The block `if (state == 0){ ... }` of the loop body, on the sample `v = m[j]`. -/
def block0 (s : Detector) (v : Nat) : Detector :=
  if s.state = 0 then
    if v ≤ SILENCE_MAX then
      { s with nsilence := s.nsilence + 1 }
    else
      let s1 := if s.nsilence > s.nsilences then { s with nsilences := s.nsilence } else s
      let s2 :=
        if v ≥ ON_MIN then
          if s1.nsilence > NSILENCE_MIN then { s1 with non := 0, state := 1 } else s1
        else s1
      if v ≥ SILENCE_MAX then { s2 with nsilence := 0 } else s2
  else s

/-- The block `if (state == 1){ ... }` of the loop body, on the sample `v = m[j]`. -/
def block1 (s : Detector) (v : Nat) : Detector :=
  if s.state = 1 then
    if v > ON_MIN then
      { s with non := s.non + 1, nons := s.nons + 1 }
    else if s.non > NON_MIN then
      { s with noff := 0, state := 2 }
    else s
  else s

/-- The block `if (state == 2){ ... }` of the loop body, on the sample `v = m[j]`. -/
def block2 (s : Detector) (v : Nat) : Detector :=
  if s.state = 2 then
    if v < OFF_MAX then
      { s with noff := s.noff + 1, noffs := s.noffs + 1 }
    else if s.noff > NOFF_MIN then
      { s with bit0 := s.bit0 + 1, state := 0, nsilence := 0 }
    else s
  else s

/-- One loop body of `detectFrame`: the three blocks in sequence on the same sample. -/
def stepSample (s : Detector) (v : Nat) : Detector :=
  block2 (block1 (block0 s v) v) v

/-- Subtraction of two `uint32_t` values: the difference modulo `2^32`, that is
`(a % 2^32 + 2^32 - b % 2^32) % 2^32` (see `sub32_eq_mod`), written by cases so that it
evaluates without counting to `2^32`. -/
def sub32 (a b : Nat) : Nat :=
  if b % 2 ^ 32 ≤ a % 2 ^ 32 then a % 2 ^ 32 - b % 2 ^ 32
  else a % 2 ^ 32 + 2 ^ 32 - b % 2 ^ 32

/-- The loop bound `mlen - MODES_FULL_LEN*2` of `detectFrame`, in `uint32_t` arithmetic:
`mlen` is a `uint32_t`, so the `int` 240 is converted to unsigned and the difference
is taken modulo `2^32`. -/
def scanLimit (mlen : Nat) : Nat :=
  sub32 mlen (MODES_FULL_LEN * 2)

/-- The loop `for (j = ...; j < limit; j++) { ... }` of `detectFrame` as a counted loop:
`n` is the number of iterations left (`limit - j`), `j` the index, `s` the locals and
`reads` the indices of `m` read so far. Every iteration reads `m[j]` (the locals keep
`state` in 0, 1, 2, so one of the three blocks tests the sample); a read outside `m`
is a fault, and so is `j++` at `INT_MAX`. -/
def scanFrom (m : List Nat) : Nat → Nat → Detector → List Nat →
    Except Fault (Detector × List Nat)
  | 0, _, s, reads => .ok (s, reads)
  | n + 1, j, s, reads =>
    match m[j]? with
    | none => .error (.readOutOfBounds j)
    | some v =>
      if j + 1 > INT_MAX then .error .signedOverflow
      else scanFrom m n (j + 1) (stepSample s v) (reads ++ [j])

/-- The scan loop of `detectFrame(m, mlen)` from its initial state: the final locals
and the indices read. -/
def detectLoop (m : List Nat) (mlen : Nat) : Except Fault (Detector × List Nat) :=
  scanFrom m (scanLimit mlen) 0 Detector.init []

/-- What `detectFrame` prints: `bit0`, `nsilences`, `nons`, `noffs` and `m[0]`. -/
structure Report where
  /-- Printed `bit0`. -/
  bit0 : Int
  /-- Printed `nsilences`. -/
  nsilences : Int
  /-- Printed `nons`. -/
  nons : Int
  /-- Printed `noffs`. -/
  noffs : Int
  /-- Printed `m[0]`. -/
  m0 : Nat
deriving DecidableEq, Repr

/-- The function `detectFrame(m, mlen)`: the scan loop, then the `printf` of the
counters and of `m[0]`. -/
def detectFrame (m : List Nat) (mlen : Nat) : Except Fault Report :=
  match detectLoop m mlen with
  | .error e => .error e
  | .ok (s, _) =>
    match m[0]? with
    | none => .error (.readOutOfBounds 0)
    | some v0 =>
      .ok { bit0 := s.bit0, nsilences := s.nsilences, nons := s.nons, noffs := s.noffs,
            m0 := v0 }

/-- Number of times the variable `state` changes during one loop body: once for each of
the three blocks that leaves `state` different from what it found. -/
def stateChanges (s : Detector) (v : Nat) : Nat :=
  (if (block0 s v).state = s.state then 0 else 1)
    + (if (block1 (block0 s v) v).state = (block0 s v).state then 0 else 1)
    + (if (block2 (block1 (block0 s v) v) v).state = (block1 (block0 s v) v).state
        then 0 else 1)

/-- The loop body iterated over consecutive samples. -/
def runSamples (s : Detector) (vs : List Nat) : Detector :=
  vs.foldl stepSample s


/-! ## The shared context and the acquisition callback, `rtlsdrCallback` -/

/-- The fields of `ctx_t` that the callback and the magnitude computation use. The
blocks `data`, `magnitude` and `maglut` are held by value: the list is what the pointer
points to, and its length is the size of the allocation. -/
structure ctx_t where
  /-- Field `data_ready`. -/
  data_ready : Int
  /-- Field `data_len` (a `uint32_t`): the buffer length in bytes. -/
  data_len : Nat
  /-- Block `data`: the raw I/Q bytes. -/
  data : List Nat
  /-- Block `magnitude`: the magnitude vector (`uint16_t` entries). -/
  magnitude : List Nat
  /-- Block `maglut`: the I/Q to magnitude lookup table (`uint16_t` entries). -/
  maglut : List Nat
deriving DecidableEq, Repr

/-- The call `memcpy(dst + doff, src + soff, n)` on two blocks that do not overlap in the
copied ranges: it faults when the `n` bytes read leave `src` or the `n` bytes written
leave `dst`, and otherwise replaces `dst[doff .. doff+n)` by `src[soff .. soff+n)`. -/
def memcpy (dst : List Nat) (doff : Nat) (src : List Nat) (soff n : Nat) :
    Except Fault (List Nat) :=
  if src.length < soff + n then .error (.readOutOfBounds src.length)
  else if dst.length < doff + n then .error (.writeOutOfBounds dst.length)
  else .ok (dst.take doff ++ (src.drop soff).take n ++ dst.drop (doff + n))

/-- The function `rtlsdrCallback(buf, len, ctx)`, the critical section between the lock
and the unlock of `data_mutex`: clamp `len`, move the last `(MODES_FULL_LEN-1)*4` bytes
of the buffer to its start (source `data + MODES_DATA_LEN`, destination `data`), copy
`len` bytes of `buf` after them, set `data_ready`. -/
def rtlsdrCallback (buf : List Nat) (len : Nat) (ctx : ctx_t) : Except Fault ctx_t :=
  let len := if len > MODES_DATA_LEN then MODES_DATA_LEN else len
  match memcpy ctx.data 0 ctx.data MODES_DATA_LEN ((MODES_FULL_LEN - 1) * 4) with
  | .error e => .error e
  | .ok d1 =>
    match memcpy d1 ((MODES_FULL_LEN - 1) * 4) buf 0 len with
    | .error e => .error e
    | .ok d2 => .ok { ctx with data := d2, data_ready := 1 }

/-- The context as `main` sets it up before it starts the reader thread: `data_len` is
`MODES_DATA_LEN + (MODES_FULL_LEN-1)*4`, `data` is that many bytes of value 127 and
`data_ready` is 0. The content of the freshly allocated magnitude block and the table
are parameters. -/
def initCtx (magnitude maglut : List Nat) : ctx_t :=
  { data_ready := 0
    data_len := MODES_DATA_LEN + (MODES_FULL_LEN - 1) * 4
    data := List.replicate (MODES_DATA_LEN + (MODES_FULL_LEN - 1) * 4) 127
    magnitude := magnitude
    maglut := maglut }

/-! ## The magnitude computation, `computeMagnitudeVector` -/

/-- The loop `for (j = ...; j < data_len; j += 2) { ... }` of `computeMagnitudeVector` as
a counted loop: `n` is the number of iterations left, `j` the `uint32_t` index, `m` the
magnitude block. An iteration reads `p[j]` and `p[j+1]`, takes the absolute values of
their differences to 127 as `int`, reads `maglut[i*129+q]` and writes it to `m[j/2]`.
Accesses outside a block fault; `j += 2` wrapping modulo `2^32` would start the loop
over, which is a fault too. -/
def magLoop (p maglut : List Nat) : Nat → Nat → List Nat → Except Fault (List Nat)
  | 0, _, m => .ok m
  | n + 1, j, m =>
    match p[j]? with
    | none => .error (.readOutOfBounds j)
    | some s0 =>
      match p[j + 1]? with
      | none => .error (.readOutOfBounds (j + 1))
      | some s1 =>
        let i : Int := (s0 : Int) - 127
        let q : Int := (s1 : Int) - 127
        let i : Int := if i < 0 then -i else i
        let q : Int := if q < 0 then -q else q
        match maglut[(i * 129 + q).toNat]? with
        | none => .error (.readOutOfBounds (i * 129 + q).toNat)
        | some v =>
          if m.length ≤ j / 2 then .error (.writeOutOfBounds (j / 2))
          else if 2 ^ 32 ≤ j + 2 then .error .indexWrap
          else magLoop p maglut n (j + 2) (m.set (j / 2) v)

/-- The function `computeMagnitudeVector(ctx)`: the loop runs for `j = 0, 2, 4, ...`
below `data_len`, that is `(data_len + 1) / 2` times, over `ctx->data` and writes
`ctx->magnitude`. -/
def computeMagnitudeVector (ctx : ctx_t) : Except Fault ctx_t :=
  match magLoop ctx.data ctx.maglut ((ctx.data_len + 1) / 2) 0 ctx.magnitude with
  | .error e => .error e
  | .ok m => .ok { ctx with magnitude := m }

/-- A small context on which `computeMagnitudeVector` can be run: the two-byte buffer
`[130, 123]`, a two-entry magnitude block and a table that holds its own index at
every entry. -/
def sampleCtx : ctx_t :=
  { data_ready := 1
    data_len := 2
    data := [130, 123]
    magnitude := [7, 7]
    maglut := List.range (129 * 129) }

/-- Index of the table entry `table[i][q]` for the byte pair `(s0, s1)`:
`i = |s0 - 127|`, `q = |s1 - 127|`, stored at `i * 129 + q`. -/
def maglutIndex (s0 s1 : Nat) : Nat :=
  ((s0 : Int) - 127).natAbs * 129 + ((s1 : Int) - 127).natAbs

/-! ## The lookup table built by `main` -/

/-- The value of `round(sqrt(n)*360)`: the integer nearest to `360 * sqrt n`. As
`360 * sqrt n` is half of `sqrt (720 * 720 * n)`, its nearest integer
`floor (360 * sqrt n + 1/2)` is `(floor (sqrt (720 * 720 * n)) + 1) / 2` in integer
arithmetic. The C expression is evaluated in `double`: `roundSqrt360_of_rounded` shows
that rounding errors of that size do not change the result. -/
def roundSqrt360 (n : Nat) : Nat :=
  (Nat.sqrt (720 * 720 * n) + 1) / 2

/-- The inner loop `for (q = ...; q <= 128; q++) maglut[j*129+q] = round(...)` of `main` as
a counted loop: `n` is the number of iterations left, `t` the table block. The value is
stored in a `uint16_t`, hence modulo `2^16`; a write outside the block is a fault. -/
def fillRow (j : Nat) : Nat → Nat → List Nat → Except Fault (List Nat)
  | 0, _, t => .ok t
  | n + 1, q, t =>
    if t.length ≤ j * 129 + q then .error (.writeOutOfBounds (j * 129 + q))
    else fillRow j n (q + 1) (t.set (j * 129 + q) (roundSqrt360 (j * j + q * q) % 2 ^ 16))

/-- The outer loop `for (j = ...; j <= 128; j++)` of the table construction in `main` as a
counted loop: each iteration runs the inner loop for `q = 0 .. 128`. -/
def fillTable : Nat → Nat → List Nat → Except Fault (List Nat)
  | 0, _, t => .ok t
  | n + 1, j, t =>
    match fillRow j 129 0 t with
    | .error e => .error e
    | .ok t2 => fillTable n (j + 1) t2

/-- The table construction of `main`: `block` is the content of the fresh allocation
`malloc(129*129*2)` (129 * 129 entries of type `uint16_t`), filled for `j = 0 .. 128`. -/
def buildMaglut (block : List Nat) : Except Fault (List Nat) :=
  fillTable 129 0 block

/-! ## Silence runs, as the specification describes them -/

/-- Specification side: in the list `l` the `len` samples from index `i` on are all at
or below the silence ceiling (800) and the sample after them exists and is above it: a
silence run of length `len` that a non-silent sample ends. -/
def EndedSilenceRun (l : List Nat) (i len : Nat) : Prop :=
  (∀ t, t < len → ∃ x, l[i + t]? = some x ∧ x ≤ 800) ∧ ∃ y, l[i + len]? = some y ∧ 800 < y

/-- Specification side: scan of `l` for its longest run of consecutive samples at or
below the silence ceiling, with `cur` the length of the run in progress and `best` the
longest run seen. -/
def silenceRuns : List Nat → Nat → Nat → Nat
  | [], cur, best => max best cur
  | v :: vs, cur, best =>
    if v ≤ 800 then silenceRuns vs (cur + 1) best else silenceRuns vs 0 (max best cur)

/-- Specification side: the length of the longest run of consecutive samples of `l` at
or below the silence ceiling (0 when there is none). -/
def longestSilenceRun (l : List Nat) : Nat :=
  silenceRuns l 0 0

/-- The sample budget of the detector after `j` samples: `271 * bit0` plus the length of
the run in progress (plus the 226 silence samples behind a pulse run, or the 226 silence
and 31 pulse samples behind a gap run) is at most `j`, and so is `nons + noffs`. -/
def ScanBudget (s : Detector) (j : Int) : Prop :=
  ((s.state = 0 ∧ 0 ≤ s.nsilence ∧ 271 * s.bit0 + s.nsilence ≤ j)
      ∨ (s.state = 1 ∧ 0 ≤ s.non ∧ 271 * s.bit0 + 226 + s.non ≤ j)
      ∨ (s.state = 2 ∧ 0 ≤ s.noff ∧ 271 * s.bit0 + 257 + s.noff ≤ j))
    ∧ s.nons + s.noffs ≤ j

/-! ## The two threads and `data_mutex` -/

/-- The two threads of the program: the reader thread, in which `rtlsdr_read_async`
calls `rtlsdrCallback`, and the main thread with its processing loop. -/
inductive Thread where
  /-- The thread started by `pthread_create`, running `readerThreadEntryPoint`. -/
  | reader
  /-- The thread of `main`. -/
  | main
deriving DecidableEq, Repr

/-- Program points of the reader thread: the statement of `rtlsdrCallback` that the
thread executes next. -/
inductive ReaderPc where
  /-- Inside `rtlsdr_read_async`, before the next call of the callback. -/
  | idle
  /-- At `pthread_mutex_lock(&ctx->data_mutex)`. -/
  | lock
  /-- At `memcpy(ctx->data, ctx->data+MODES_DATA_LEN, (MODES_FULL_LEN-1)*4)`. -/
  | move
  /-- At `memcpy(ctx->data+(MODES_FULL_LEN-1)*4, buf, len)`. -/
  | copy
  /-- At `ctx->data_ready = 1`. -/
  | setReady
  /-- At `pthread_cond_signal(&ctx->data_cond)`. -/
  | signal
  /-- At `pthread_mutex_unlock(&ctx->data_mutex)`. -/
  | unlock
deriving DecidableEq, Repr

/-- Program points of the main thread from the creation of the reader thread on: the
statement of `main` that the thread executes next. -/
inductive MainPc where
  /-- At the `pthread_mutex_lock` before the `while(1)` loop. -/
  | lock0
  /-- At the test `if (!ctx.data_ready)` at the top of the loop. -/
  | test
  /-- At `pthread_cond_wait(&ctx.data_cond,&ctx.data_mutex)`. -/
  | wait
  /-- Inside `pthread_cond_wait`, the mutex released, until the thread takes it again. -/
  | waiting
  /-- At `computeMagnitudeVector(&ctx)`. -/
  | compute
  /-- At `ctx.data_ready = 0`. -/
  | clearReady
  /-- At `pthread_cond_signal(&ctx.data_cond)`. -/
  | signal
  /-- At `pthread_mutex_unlock(&ctx.data_mutex)`. -/
  | unlock
  /-- At `detectFrame(ctx.magnitude, ctx.data_len/2)`. -/
  | detect
  /-- At `backgroundTasks(&ctx)`. -/
  | background
  /-- At the `pthread_mutex_lock` at the end of the loop body. -/
  | lock1
  /-- At `if (ctx.exit) break`. -/
  | checkExit
  /-- At `rtlsdr_close(ctx.dev)`, after the loop. -/
  | close
  /-- After `return 0`. -/
  | done
deriving DecidableEq, Repr

/-- The two pieces of shared state that `data_mutex` guards. -/
inductive Guarded where
  /-- The raw buffer `ctx.data`. -/
  | data
  /-- The flag `ctx.data_ready`. -/
  | data_ready
deriving DecidableEq, Repr

/-- A write to guarded state, as recorded when it happens: who writes, what, and who
holds `data_mutex` at that moment. -/
structure WriteEvent where
  /-- The writing thread. -/
  thread : Thread
  /-- What is written. -/
  field : Guarded
  /-- The holder of `data_mutex` when the write happens. -/
  holder : Option Thread
deriving DecidableEq, Repr

/-- The state of the two threads and of what they share. `holder` is the owner of
`data_mutex`; `misuse` records an unlock or a wait by a thread that does not hold the
mutex; `writes` is the record of all writes to `ctx.data` and `ctx.data_ready`. -/
structure Coordinator where
  /-- Program point of the reader thread. -/
  rpc : ReaderPc
  /-- Program point of the main thread. -/
  mpc : MainPc
  /-- Owner of `data_mutex`, if any. -/
  holder : Option Thread
  /-- Field `data_ready`. -/
  data_ready : Int
  /-- Field `exit` (zeroed by the `memset` of `main`, written nowhere). -/
  exit : Int
  /-- Set when a thread unlocks or waits on a mutex it does not hold. -/
  misuse : Bool
  /-- Writes to the guarded state so far, oldest first. -/
  writes : List WriteEvent
deriving DecidableEq, Repr

/-- The state right after `pthread_create`: the reader thread has not called the callback
yet, `main` is about to lock the mutex, the mutex is free, `data_ready` and `exit` are
0. -/
def Coordinator.init : Coordinator :=
  { rpc := .idle, mpc := .lock0, holder := none, data_ready := 0, exit := 0,
    misuse := false, writes := [] }

/-- One statement of the reader thread. `pthread_mutex_lock` takes the mutex when it is
free and otherwise leaves the thread where it is; the two `memcpy` and the assignment
are recorded as writes; `pthread_mutex_unlock` frees the mutex. -/
def stepReader (s : Coordinator) : Coordinator :=
  match s.rpc with
  | .idle => { s with rpc := .lock }
  | .lock =>
    if s.holder = none then { s with holder := some .reader, rpc := .move } else s
  | .move =>
    { s with rpc := .copy, writes := s.writes ++ [⟨.reader, .data, s.holder⟩] }
  | .copy =>
    { s with rpc := .setReady, writes := s.writes ++ [⟨.reader, .data, s.holder⟩] }
  | .setReady =>
    { s with rpc := .signal, data_ready := 1,
             writes := s.writes ++ [⟨.reader, .data_ready, s.holder⟩] }
  | .signal => { s with rpc := .unlock }
  | .unlock =>
    { s with rpc := .idle, holder := none,
             misuse := s.misuse || !decide (s.holder = some .reader) }

/-- One statement of the main thread. `pthread_cond_wait` frees the mutex and the thread
goes on, at the test of the loop (`continue`), once it has taken the mutex again; it may
wake at any time, signalled or not. `computeMagnitudeVector` reads `ctx.data` and writes
the magnitude block, `detectFrame` reads the magnitude block: neither writes guarded
state. -/
def stepMain (s : Coordinator) : Coordinator :=
  match s.mpc with
  | .lock0 =>
    if s.holder = none then { s with holder := some .main, mpc := .test } else s
  | .test => if s.data_ready = 0 then { s with mpc := .wait } else { s with mpc := .compute }
  | .wait =>
    { s with mpc := .waiting, holder := none,
             misuse := s.misuse || !decide (s.holder = some .main) }
  | .waiting =>
    if s.holder = none then { s with holder := some .main, mpc := .test } else s
  | .compute => { s with mpc := .clearReady }
  | .clearReady =>
    { s with mpc := .signal, data_ready := 0,
             writes := s.writes ++ [⟨.main, .data_ready, s.holder⟩] }
  | .signal => { s with mpc := .unlock }
  | .unlock =>
    { s with mpc := .detect, holder := none,
             misuse := s.misuse || !decide (s.holder = some .main) }
  | .detect => { s with mpc := .background }
  | .background => { s with mpc := .lock1 }
  | .lock1 =>
    if s.holder = none then { s with holder := some .main, mpc := .checkExit } else s
  | .checkExit => if s.exit = 0 then { s with mpc := .test } else { s with mpc := .close }
  | .close => { s with mpc := .done }
  | .done => s

/-- One step of the program: the thread `t` executes its next statement. -/
def stepThread (s : Coordinator) (t : Thread) : Coordinator :=
  match t with
  | .reader => stepReader s
  | .main => stepMain s

/-- An interleaving: the threads take their steps in the order given by `sched`. -/
def runThreads (s : Coordinator) (sched : List Thread) : Coordinator :=
  sched.foldl stepThread s

/-- The program points of the callback between its lock and its unlock. -/
def readerHolds : ReaderPc → Bool
  | .move | .copy | .setReady | .signal | .unlock => true
  | _ => false

/-- The program points of `main` at which it has locked the mutex and not released
it. -/
def mainHolds : MainPc → Bool
  | .test | .wait | .compute | .clearReady | .signal | .unlock | .checkExit | .close
  | .done => true
  | _ => false

/-- The lock discipline: the mutex is held by the reader exactly between the lock and
the unlock of the callback and by `main` exactly at its locked program points, the flag
is 0 or 1, no thread has unlocked a mutex it did not hold, and every recorded write was
made by the holder of the mutex. -/
def LockInv (s : Coordinator) : Prop :=
  (readerHolds s.rpc = true ↔ s.holder = some .reader)
    ∧ (mainHolds s.mpc = true ↔ s.holder = some .main)
    ∧ (s.data_ready = 0 ∨ s.data_ready = 1)
    ∧ s.misuse = false
    ∧ ∀ e ∈ s.writes, e.holder = some e.thread

/-! ## Lemmas on the scan loop -/

/-- The function `sub32` is subtraction modulo `2^32`. -/
theorem sub32_eq_mod (a b : Nat) :
    sub32 a b = (a % 2 ^ 32 + 2 ^ 32 - b % 2 ^ 32) % 2 ^ 32 := by
  unfold sub32
  split <;> omega

theorem scanLimit_short (mlen : Nat) (h : mlen < 240) :
    scanLimit mlen = 2 ^ 32 - 240 + mlen := by
  simp only [scanLimit, sub32_eq_mod, MODES_FULL_LEN, MODES_PREAMBLE_US, MODES_LONG_MSG_BITS]
  omega

theorem scanLimit_long (mlen : Nat) (h : 240 ≤ mlen) (h32 : mlen < 2 ^ 32) :
    scanLimit mlen = mlen - 240 := by
  simp only [scanLimit, sub32_eq_mod, MODES_FULL_LEN, MODES_PREAMBLE_US, MODES_LONG_MSG_BITS]
  omega

theorem runSamples_nil (s : Detector) : runSamples s [] = s := rfl

theorem runSamples_cons (s : Detector) (v : Nat) (vs : List Nat) :
    runSamples s (v :: vs) = runSamples (stepSample s v) vs := rfl

theorem runSamples_append (s : Detector) (xs ys : List Nat) :
    runSamples s (xs ++ ys) = runSamples (runSamples s xs) ys := by
  simp [runSamples, List.foldl_append]

/-- A scan that stays inside the vector and below `INT_MAX` runs the loop body over the
samples `m[j], ..., m[j+n-1]` and reads exactly those indices. -/
theorem scanFrom_ok (m : List Nat) :
    ∀ (n j : Nat) (s : Detector) (reads : List Nat), j + n ≤ m.length → j + n ≤ INT_MAX →
      scanFrom m n j s reads
        = .ok (runSamples s ((m.drop j).take n), reads ++ List.range' j n) := by
  intro n
  induction n with
  | zero => intro j s reads _ _; simp [scanFrom, runSamples]
  | succ n ih =>
    intro j s reads hlen hmax
    have hj : j < m.length := by omega
    have hdrop : m.drop j = m[j] :: m.drop (j + 1) := List.drop_eq_getElem_cons hj
    have hget : m[j]? = some m[j] := List.getElem?_eq_getElem hj
    have hnot : ¬ (j + 1 > INT_MAX) := by omega
    rw [scanFrom, hget]
    simp only [hnot, if_false]
    rw [ih (j + 1) _ _ (by omega) (by omega), hdrop]
    simp only [List.take_succ_cons, runSamples_cons, List.range'_succ, List.append_assoc,
      List.singleton_append]

/-- A scan whose limit lies beyond the end of the vector reads one element past the
end: it faults at index `m.length`. -/
theorem scanFrom_fault (m : List Nat) (hmax : m.length ≤ INT_MAX) :
    ∀ (n j : Nat) (s : Detector) (reads : List Nat), j ≤ m.length → m.length < j + n →
      scanFrom m n j s reads = .error (.readOutOfBounds m.length) := by
  intro n
  induction n with
  | zero => intro j s reads h1 h2; omega
  | succ n ih =>
    intro j s reads h1 h2
    rcases Nat.lt_or_ge j m.length with hj | hj
    · have hget : m[j]? = some m[j] := List.getElem?_eq_getElem hj
      have hnot : ¬ (j + 1 > INT_MAX) := by omega
      rw [scanFrom, hget]
      simp only [hnot, if_false]
      exact ih (j + 1) _ _ (by omega) (by omega)
    · have hj2 : j = m.length := by omega
      have hget : m[j]? = none := List.getElem?_eq_none (by omega)
      rw [scanFrom, hget, hj2]

/-- The scan loop of `detectFrame` on a vector of 240 to `2^31 + 239` samples, the
lengths for which the index `j` stays an `int`. -/
theorem detectLoop_eq (m : List Nat) (h240 : 240 ≤ m.length)
    (hlt : m.length < 2 ^ 31 + 240) :
    detectLoop m m.length
      = .ok (runSamples Detector.init (m.take (m.length - 240)),
             List.range (m.length - 240)) := by
  have hlim : scanLimit m.length = m.length - 240 := scanLimit_long _ h240 (by omega)
  rw [detectLoop, hlim, scanFrom_ok m _ 0 _ _ (by omega) (by simp only [INT_MAX]; omega)]
  simp [List.range_eq_range']

/-! ## Lemmas on the loop body -/

theorem stepSample_silence (s : Detector) (v : Nat) (hs : s.state = 0) (hv : v ≤ 800) :
    stepSample s v = { s with nsilence := s.nsilence + 1 } := by
  have h1 : v ≤ SILENCE_MAX := by simp only [SILENCE_MAX, SILENCE_MID, SILENCE_TOL]; omega
  simp [stepSample, block0, block1, block2, hs, h1]

theorem stepSample_idle (s : Detector) (v : Nat) (hs : s.state = 0) (h0 : s.nsilence = 0)
    (hmax : 0 ≤ s.nsilences) (hv : 800 < v) : stepSample s v = s := by
  have h1 : ¬ v ≤ SILENCE_MAX := by simp only [SILENCE_MAX, SILENCE_MID, SILENCE_TOL]; omega
  have h2 : v ≥ SILENCE_MAX := by simp only [SILENCE_MAX, SILENCE_MID, SILENCE_TOL]; omega
  have h3 : ¬ (0 : Int) > s.nsilences := by omega
  have h4 : ¬ (0 : Int) > NSILENCE_MIN := by simp only [NSILENCE_MIN]; omega
  cases s
  simp only at hs h0 hmax h3
  subst hs h0
  simp [stepSample, block0, block1, block2, h1, h2, h3, h4]

theorem stepSample_pulse_start (s : Detector) (v : Nat) (hs : s.state = 0)
    (hrun : 225 < s.nsilence) (hmax : s.nsilences < s.nsilence) (hv : 30000 < v) :
    stepSample s v
      = { s with state := 1, nsilences := s.nsilence, nsilence := 0, non := 1,
                 nons := s.nons + 1 } := by
  have h1 : ¬ v ≤ SILENCE_MAX := by simp only [SILENCE_MAX, SILENCE_MID, SILENCE_TOL]; omega
  have h2 : v ≥ SILENCE_MAX := by simp only [SILENCE_MAX, SILENCE_MID, SILENCE_TOL]; omega
  have h3 : v ≥ ON_MIN := by simp only [ON_MIN, ON_MID, ON_TOL]; omega
  have h4 : v > ON_MIN := by simp only [ON_MIN, ON_MID, ON_TOL]; omega
  have h5 : s.nsilence > NSILENCE_MIN := by simp only [NSILENCE_MIN]; omega
  have h6 : s.nsilence > s.nsilences := hmax
  simp [stepSample, block0, block1, block2, hs, h1, h2, h3, h4, h5, h6]

theorem stepSample_pulse (s : Detector) (v : Nat) (hs : s.state = 1) (hv : 30000 < v) :
    stepSample s v = { s with non := s.non + 1, nons := s.nons + 1 } := by
  have h4 : v > ON_MIN := by simp only [ON_MIN, ON_MID, ON_TOL]; omega
  simp [stepSample, block0, block1, block2, hs, h4]

theorem stepSample_gap_start (s : Detector) (v : Nat) (hs : s.state = 1) (hrun : 30 < s.non)
    (hv : v < 3000) :
    stepSample s v = { s with state := 2, noff := 1, noffs := s.noffs + 1 } := by
  have h1 : ¬ v > ON_MIN := by simp only [ON_MIN, ON_MID, ON_TOL]; omega
  have h2 : s.non > NON_MIN := by simp only [NON_MIN]; omega
  have h3 : v < OFF_MAX := by simp only [OFF_MAX, OFF_MID, OFF_TOL]; omega
  simp [stepSample, block0, block1, block2, hs, h1, h2, h3]

theorem stepSample_gap (s : Detector) (v : Nat) (hs : s.state = 2) (hv : v < 3000) :
    stepSample s v = { s with noff := s.noff + 1, noffs := s.noffs + 1 } := by
  have h3 : v < OFF_MAX := by simp only [OFF_MAX, OFF_MID, OFF_TOL]; omega
  simp [stepSample, block0, block1, block2, hs, h3]

theorem stepSample_bit (s : Detector) (v : Nat) (hs : s.state = 2) (hrun : 12 < s.noff)
    (hv : 3000 ≤ v) :
    stepSample s v = { s with bit0 := s.bit0 + 1, state := 0, nsilence := 0 } := by
  have h3 : ¬ v < OFF_MAX := by simp only [OFF_MAX, OFF_MID, OFF_TOL]; omega
  have h2 : s.noff > NOFF_MIN := by simp only [NOFF_MIN]; omega
  simp [stepSample, block0, block1, block2, hs, h2, h3]

/-- Block 0 leaves `state` alone or moves it from 0 to 1 with `non = 0`. -/
theorem block0_state (s : Detector) (v : Nat) :
    (block0 s v).state = s.state
      ∨ (s.state = 0 ∧ (block0 s v).state = 1 ∧ (block0 s v).non = 0) := by
  unfold block0
  by_cases h0 : s.state = 0
  · simp only [h0, if_true]
    split_ifs <;> simp_all
  · simp only [h0, if_false, true_or]

/-- Block 1 leaves `state` alone or moves it from 1 to 2 with `noff = 0`. -/
theorem block1_state (s : Detector) (v : Nat) :
    (block1 s v).state = s.state
      ∨ (s.state = 1 ∧ (block1 s v).state = 2 ∧ (block1 s v).noff = 0) := by
  unfold block1
  split_ifs <;> simp_all

/-- Block 1 cannot leave state 1 when the pulse run is empty. -/
theorem block1_of_non_zero (s : Detector) (v : Nat) (h : s.non = 0) :
    (block1 s v).state = s.state := by
  unfold block1
  have hn : ¬ s.non > NON_MIN := by simp only [NON_MIN]; omega
  split_ifs <;> rfl

/-- Block 2 cannot leave state 2 when the gap run is empty. -/
theorem block2_of_noff_zero (s : Detector) (v : Nat) (h : s.noff = 0) :
    (block2 s v).state = s.state := by
  unfold block2
  have hn : ¬ s.noff > NOFF_MIN := by simp only [NOFF_MIN]; omega
  split_ifs <;> rfl

/-- The loop body keeps `state` in 0, 1, 2, so every iteration tests its sample. -/
theorem stepSample_state (s : Detector) (v : Nat)
    (h : s.state = 0 ∨ s.state = 1 ∨ s.state = 2) :
    (stepSample s v).state = 0 ∨ (stepSample s v).state = 1 ∨ (stepSample s v).state = 2 := by
  have h0 : (block0 s v).state = 0 ∨ (block0 s v).state = 1 ∨ (block0 s v).state = 2 := by
    rcases block0_state s v with e | ⟨_, e, _⟩
    · rw [e]; exact h
    · exact Or.inr (Or.inl e)
  have h1 : (block1 (block0 s v) v).state = 0 ∨ (block1 (block0 s v) v).state = 1
      ∨ (block1 (block0 s v) v).state = 2 := by
    rcases block1_state (block0 s v) v with e | ⟨_, e, _⟩
    · rw [e]; exact h0
    · exact Or.inr (Or.inr e)
  unfold stepSample block2
  split_ifs
  · exact Or.inr (Or.inr (by assumption))
  · exact Or.inl rfl
  · exact Or.inr (Or.inr (by assumption))
  · exact h1

/-- Block 2 does nothing outside state 2. -/
theorem block2_of_state_ne (s : Detector) (v : Nat) (h : s.state ≠ 2) : block2 s v = s := by
  unfold block2
  rw [if_neg h]

/-! ## Lemmas on runs of samples -/

theorem runSamples_silence (vs : List Nat) :
    ∀ s : Detector, s.state = 0 → (∀ v ∈ vs, v ≤ 800) →
      runSamples s vs = { s with nsilence := s.nsilence + vs.length } := by
  induction vs with
  | nil => intro s _ _; simp [runSamples]
  | cons v vs ih =>
    intro s hs hall
    rw [runSamples_cons, stepSample_silence s v hs (hall v (List.mem_cons_self v vs)),
      ih { s with nsilence := s.nsilence + 1 } hs (fun w hw => hall w (List.mem_cons_of_mem v hw))]
    simp only [List.length_cons, Nat.cast_add, Nat.cast_one]
    congr 1
    omega

theorem runSamples_idle (vs : List Nat) (s : Detector) (hs : s.state = 0)
    (h0 : s.nsilence = 0) (hmax : 0 ≤ s.nsilences) (hall : ∀ v ∈ vs, 800 < v) :
    runSamples s vs = s := by
  induction vs with
  | nil => rfl
  | cons v vs ih =>
    rw [runSamples_cons, stepSample_idle s v hs h0 hmax (hall v (List.mem_cons_self v vs))]
    exact ih (fun w hw => hall w (List.mem_cons_of_mem v hw))

theorem runSamples_pulse (vs : List Nat) :
    ∀ s : Detector, s.state = 1 → (∀ v ∈ vs, 30000 < v) →
      runSamples s vs = { s with non := s.non + vs.length, nons := s.nons + vs.length } := by
  induction vs with
  | nil => intro s _ _; simp [runSamples]
  | cons v vs ih =>
    intro s hs hall
    rw [runSamples_cons, stepSample_pulse s v hs (hall v (List.mem_cons_self v vs)),
      ih { s with non := s.non + 1, nons := s.nons + 1 } hs
        (fun w hw => hall w (List.mem_cons_of_mem v hw))]
    simp only [List.length_cons, Nat.cast_add, Nat.cast_one]
    congr 1 <;> omega

theorem runSamples_gap (vs : List Nat) :
    ∀ s : Detector, s.state = 2 → (∀ v ∈ vs, v < 3000) →
      runSamples s vs
        = { s with noff := s.noff + vs.length, noffs := s.noffs + vs.length } := by
  induction vs with
  | nil => intro s _ _; simp [runSamples]
  | cons v vs ih =>
    intro s hs hall
    rw [runSamples_cons, stepSample_gap s v hs (hall v (List.mem_cons_self v vs)),
      ih { s with noff := s.noff + 1, noffs := s.noffs + 1 } hs
        (fun w hw => hall w (List.mem_cons_of_mem v hw))]
    simp only [List.length_cons, Nat.cast_add, Nat.cast_one]
    congr 1 <;> omega

/-- A silence run and a pulse run, scanned from the initial state: the detector is left
in state 1 and `non` is the length of the pulse run. -/
theorem runSamples_to_pulse (S P : List Nat)
    (hS : ∀ v ∈ S, v ≤ 800) (hSl : 225 < S.length)
    (hP : ∀ v ∈ P, 30000 < v) (hPl : 0 < P.length) :
    runSamples Detector.init (S ++ P)
      = { state := 1, nsilence := 0, nsilences := S.length, non := P.length,
          nons := P.length, noff := 0, noffs := 0, bit0 := 0 } := by
  obtain ⟨p, P, rfl⟩ := List.exists_cons_of_length_pos hPl
  have hp := hP p (List.mem_cons_self p P)
  have hP2 : ∀ v ∈ P, 30000 < v := fun w hw => hP w (List.mem_cons_of_mem p hw)
  rw [runSamples_append, runSamples_silence S Detector.init rfl hS, runSamples_cons,
    stepSample_pulse_start _ p rfl (by simp only [Detector.init]; omega)
      (by simp only [Detector.init]; omega) hp,
    runSamples_pulse P _ rfl hP2]
  simp only [Detector.init, List.length_cons, Nat.cast_add, Nat.cast_one, Detector.mk.injEq]
  repeat' apply And.intro
  all_goals first | trivial | omega

/-- A silence run, a pulse run and a gap run that nothing ends, scanned from the initial
state: the detector is left in state 2 and no bit event is counted. -/
theorem runSamples_to_gap (S P G : List Nat)
    (hS : ∀ v ∈ S, v ≤ 800) (hSl : 225 < S.length)
    (hP : ∀ v ∈ P, 30000 < v) (hPl : 30 < P.length)
    (hG : ∀ v ∈ G, v < 3000) (hGl : 0 < G.length) :
    runSamples Detector.init (S ++ P ++ G)
      = { state := 2, nsilence := 0, nsilences := S.length, non := P.length,
          nons := P.length, noff := G.length, noffs := G.length, bit0 := 0 } := by
  obtain ⟨g, G, rfl⟩ := List.exists_cons_of_length_pos hGl
  have hg := hG g (List.mem_cons_self g G)
  have hG2 : ∀ v ∈ G, v < 3000 := fun w hw => hG w (List.mem_cons_of_mem g hw)
  rw [runSamples_append, runSamples_to_pulse S P hS hSl hP (by omega), runSamples_cons,
    stepSample_gap_start _ g rfl (by simp only; omega) hg, runSamples_gap G _ rfl hG2]
  simp only [List.length_cons, Nat.cast_add, Nat.cast_one, Detector.mk.injEq]
  repeat' apply And.intro
  all_goals first | trivial | omega

/-- A silence run, a pulse run, a gap run and at least one sample at or above the off
ceiling, scanned from the initial state: one bit event, back in state 0, and the run
counters `non` and `noff` keep the lengths of the pulse run and of the gap run. -/
theorem runSamples_pattern (S P G T : List Nat)
    (hS : ∀ v ∈ S, v ≤ 800) (hSl : 225 < S.length)
    (hP : ∀ v ∈ P, 30000 < v) (hPl : 30 < P.length)
    (hG : ∀ v ∈ G, v < 3000) (hGl : 12 < G.length)
    (hT : ∀ v ∈ T, 3000 ≤ v) (hTl : 0 < T.length) :
    runSamples Detector.init (S ++ P ++ G ++ T)
      = { state := 0, nsilence := 0, nsilences := S.length, non := P.length,
          nons := P.length, noff := G.length, noffs := G.length, bit0 := 1 } := by
  obtain ⟨t, T, rfl⟩ := List.exists_cons_of_length_pos hTl
  have ht := hT t (List.mem_cons_self t T)
  have hT2 : ∀ v ∈ T, 800 < v := fun w hw => by
    have := hT w (List.mem_cons_of_mem t hw)
    omega
  rw [runSamples_append, runSamples_to_gap S P G hS hSl hP hPl hG (by omega), runSamples_cons,
    stepSample_bit _ t rfl (by simp only; omega) ht,
    runSamples_idle T _ rfl rfl (by simp only; omega) hT2]
  simp only [Int.zero_add]

/-- Dropping the last 240 samples of a vector leaves a prefix intact when the part after
that prefix has at least 240 samples. -/
theorem take_append_tail (xs T : List Nat) (hT : 240 ≤ T.length) :
    (xs ++ T).take ((xs ++ T).length - 240) = xs ++ T.take (T.length - 240) := by
  have h1 : (xs ++ T).length - 240 = xs.length + (T.length - 240) := by
    rw [List.length_append]
    omega
  rw [h1, List.take_append]

/-- The scan loop of `detectFrame`, given the part of the vector it scans. -/
theorem detectLoop_of_take (m : List Nat) (mlen : Nat) (pre : List Nat)
    (hlen : m.length = mlen) (h240 : 240 ≤ mlen) (hlt : mlen < 2 ^ 31 + 240)
    (hpre : m.take (mlen - 240) = pre) :
    detectLoop m mlen = .ok (runSamples Detector.init pre, List.range (mlen - 240)) := by
  subst hlen
  rw [detectLoop_eq m h240 hlt, hpre]

/-- The first `n` samples of a vector that starts with a run of at least `n` equal
samples. -/
theorem take_replicate_append (n a x : Nat) (rest : List Nat) (h : n ≤ a) :
    (List.replicate a x ++ rest).take n = List.replicate n x := by
  rw [List.take_append_of_le_length (by rw [List.length_replicate]; exact h),
    List.take_replicate, Nat.min_eq_left h]

theorem forall_mem_replicate (p : Nat → Prop) (n x : Nat) (h : p x) :
    ∀ v ∈ List.replicate n x, p v := by
  intro v hv
  rw [List.eq_of_mem_replicate hv]
  exact h

/-! ## Claims on the frame detector -/

/-- Claim C1, as stated, fails. On 226 silent samples, 31 pulse samples and 13 gap
samples `detectFrame` scans only the first 30 samples: no bit event, and `nsilence`
ends at 30. With a longer gap run (253 samples) the scan covers the pulse and 13 gap
samples, but no sample ends the gap: no bit event, the detector ends in state 2. -/
theorem detectFrame_unterminated_gap_counterexample :
    detectLoop (List.replicate 226 0 ++ List.replicate 31 40000 ++ List.replicate 13 0) 270
        = .ok ({ state := 0, nsilence := 30, nsilences := 0, non := 0, nons := 0, noff := 0,
                 noffs := 0, bit0 := 0 }, List.range 30)
      ∧ detectLoop
          (List.replicate 226 0 ++ List.replicate 31 40000 ++ List.replicate 253 0) 510
        = .ok ({ state := 2, nsilence := 0, nsilences := 226, non := 31, nons := 31,
                 noff := 13, noffs := 13, bit0 := 0 }, List.range 270) := by
  constructor
  · rw [detectLoop_of_take _ 270 (List.replicate 30 0)
        (by simp only [List.length_append, List.length_replicate]) (by omega) (by omega)
        (by rw [List.append_assoc]; exact take_replicate_append _ _ _ _ (by omega)),
      runSamples_silence _ Detector.init rfl (forall_mem_replicate _ _ _ (by omega)),
      List.length_replicate]
    rfl
  · rw [detectLoop_of_take _ 510
        (List.replicate 226 0 ++ List.replicate 31 40000 ++ List.replicate 13 0)
        (by simp only [List.length_append, List.length_replicate]) (by omega) (by omega)
        (by
          have h := take_append_tail (List.replicate 226 0 ++ List.replicate 31 40000)
            (List.replicate 253 0) (by rw [List.length_replicate]; omega)
          simp only [List.length_append, List.length_replicate, List.take_replicate] at h
          exact h),
      runSamples_to_gap _ _ _ (forall_mem_replicate _ _ _ (by omega))
        (by rw [List.length_replicate]; omega) (forall_mem_replicate _ _ _ (by omega))
        (by rw [List.length_replicate]; omega) (forall_mem_replicate _ _ _ (by omega))
        (by rw [List.length_replicate]; omega)]
    simp only [List.length_replicate]
    rfl

/-- Claim C1, amended. A run of more than 225 samples at one value at or below the
silence ceiling, then more than 30 samples above the on floor, then more than 12 samples
below the off ceiling, then more than 240 samples at or above the off ceiling (the first
ends the gap, the last 240 are not scanned), fewer than `2^31` samples in all: the scan
counts exactly one bit event and ends in state 0 with `nsilence = 0`, while `non` and
`noff` keep the lengths of the pulse run and of the gap run. -/
theorem detectFrame_terminated_gap_one_bit (a lo : Nat) (P G T : List Nat)
    (ha : 225 < a) (hlo : lo ≤ 800)
    (hP : ∀ v ∈ P, 30000 < v) (hPl : 30 < P.length)
    (hG : ∀ v ∈ G, v < 3000) (hGl : 12 < G.length)
    (hT : ∀ v ∈ T, 3000 ≤ v) (hTl : 240 < T.length)
    (hlen : (List.replicate a lo ++ P ++ G ++ T).length < 2 ^ 31) :
    ∃ s reads,
      detectLoop (List.replicate a lo ++ P ++ G ++ T)
          (List.replicate a lo ++ P ++ G ++ T).length = .ok (s, reads)
        ∧ s.bit0 = 1 ∧ s.state = 0 ∧ s.nsilence = 0
        ∧ s.non = P.length ∧ s.noff = G.length := by
  have h240 : 240 ≤ (List.replicate a lo ++ P ++ G ++ T).length := by
    rw [List.length_append]
    omega
  have hrun := runSamples_pattern (List.replicate a lo) P G (T.take (T.length - 240))
    (forall_mem_replicate _ _ _ hlo) (by rw [List.length_replicate]; exact ha) hP hPl hG hGl
    (fun v hv => hT v (List.mem_of_mem_take hv)) (by rw [List.length_take]; omega)
  refine ⟨_, _, detectLoop_of_take _ _ _ rfl h240 (by omega)
    (take_append_tail _ T (by omega)), ?_⟩
  rw [hrun]
  exact ⟨rfl, rfl, rfl, rfl, rfl⟩

/-- Claim C1, amended, on 226 samples 0, then 31 samples 40000, then 13 samples 0, then 241
samples 5000. -/
theorem detectFrame_terminated_gap_one_bit_witness :
    ∃ s reads,
      detectLoop
          (List.replicate 226 0 ++ List.replicate 31 40000 ++ List.replicate 13 0
            ++ List.replicate 241 5000)
          (List.replicate 226 0 ++ List.replicate 31 40000 ++ List.replicate 13 0
            ++ List.replicate 241 5000).length = .ok (s, reads)
        ∧ s.bit0 = 1 ∧ s.state = 0 ∧ s.nsilence = 0
        ∧ s.non = (List.replicate 31 40000).length
        ∧ s.noff = (List.replicate 13 0).length :=
  detectFrame_terminated_gap_one_bit 226 0 (List.replicate 31 40000) (List.replicate 13 0)
    (List.replicate 241 5000) (by omega) (by omega)
    (forall_mem_replicate _ _ _ (by omega)) (by rw [List.length_replicate]; omega)
    (forall_mem_replicate _ _ _ (by omega)) (by rw [List.length_replicate]; omega)
    (forall_mem_replicate _ _ _ (by omega)) (by rw [List.length_replicate]; omega)
    (by simp only [List.length_append, List.length_replicate]; omega)

/-- Claim C2, as stated, fails. After 226 silent samples and one pulse sample the
detector is in state 1 with `non = 1`; a sample of 100 (at or below the on floor) leaves it
in state 1. After 226 silent samples, 31 pulse samples and one gap sample it is in state
2 with `noff = 1`; a sample of 5000 (at or above the off ceiling) leaves it in state 2. -/
theorem detectFrame_no_fallback_counterexample :
    runSamples Detector.init (List.replicate 226 0 ++ [40000])
        = { state := 1, nsilence := 0, nsilences := 226, non := 1, nons := 1, noff := 0,
            noffs := 0, bit0 := 0 }
      ∧ (stepSample { state := 1, nsilence := 0, nsilences := 226, non := 1, nons := 1,
                      noff := 0, noffs := 0, bit0 := 0 } 100).state = 1
      ∧ runSamples Detector.init (List.replicate 226 0 ++ List.replicate 31 40000 ++ [0])
        = { state := 2, nsilence := 0, nsilences := 226, non := 31, nons := 31, noff := 1,
            noffs := 1, bit0 := 0 }
      ∧ (stepSample { state := 2, nsilence := 0, nsilences := 226, non := 31, nons := 31,
                      noff := 1, noffs := 1, bit0 := 0 } 5000).state = 2 := by
  refine ⟨?_, by decide, ?_, by decide⟩
  · rw [runSamples_to_pulse _ _ (forall_mem_replicate _ _ _ (by omega))
      (by rw [List.length_replicate]; omega)
      (by intro v hv; simp only [List.mem_singleton] at hv; omega)
      (by simp only [List.length_singleton]; omega), List.length_replicate]
    rfl
  · rw [runSamples_to_gap _ _ _ (forall_mem_replicate _ _ _ (by omega))
      (by rw [List.length_replicate]; omega) (forall_mem_replicate _ _ _ (by omega))
      (by rw [List.length_replicate]; omega)
      (by intro v hv; simp only [List.mem_singleton] at hv; omega)
      (by simp only [List.length_singleton]; omega), List.length_replicate,
      List.length_replicate]
    rfl

/-- Claim C2, amended. A run that fails its minimum length causes no state change:
in state 1 a sample at or below the on floor (30000) with `non <= 30`, and in state 2 a
sample at or above the off ceiling (3000) with `noff <= 12`, leave the state and every
counter as they were; no bit event is counted. -/
theorem stepSample_short_run_unchanged (s : Detector) (v : Nat)
    (h : (s.state = 1 ∧ v ≤ 30000 ∧ s.non ≤ 30)
      ∨ (s.state = 2 ∧ 3000 ≤ v ∧ s.noff ≤ 12)) :
    stepSample s v = s := by
  rcases h with ⟨hs, hv, hn⟩ | ⟨hs, hv, hn⟩
  · have h1 : ¬ v > ON_MIN := by simp only [ON_MIN, ON_MID, ON_TOL]; omega
    have h2 : ¬ s.non > NON_MIN := by simp only [NON_MIN]; omega
    simp [stepSample, block0, block1, block2, hs, h1, h2]
  · have h1 : ¬ v < OFF_MAX := by simp only [OFF_MAX, OFF_MID, OFF_TOL]; omega
    have h2 : ¬ s.noff > NOFF_MIN := by simp only [NOFF_MIN]; omega
    simp [stepSample, block0, block1, block2, hs, h1, h2]

/-- Claim C2, amended, on the state reached after 226 silent samples and one pulse
sample, with the sample 100. -/
theorem stepSample_short_run_unchanged_witness :
    stepSample { state := 1, nsilence := 0, nsilences := 226, non := 1, nons := 1, noff := 0,
                 noffs := 0, bit0 := 0 } 100
      = { state := 1, nsilence := 0, nsilences := 226, non := 1, nons := 1, noff := 0,
          noffs := 0, bit0 := 0 } :=
  stepSample_short_run_unchanged _ 100 (Or.inl ⟨rfl, by decide, by decide⟩)

/-- Claim C3 fails on the code. For a vector shorter than 240 samples the loop bound
`mlen - 240` wraps to `2^32 - 240 + mlen`, the loop runs over the whole vector and reads
`m[mlen]`, one element past the end. -/
theorem detectFrame_short_vector_overrun (m : List Nat) (h : m.length < 240) :
    scanLimit m.length = 2 ^ 32 - 240 + m.length
      ∧ detectLoop m m.length = .error (.readOutOfBounds m.length)
      ∧ detectFrame m m.length = .error (.readOutOfBounds m.length) := by
  have hloop : detectLoop m m.length = .error (.readOutOfBounds m.length) := by
    rw [detectLoop, scanLimit_short _ h]
    exact scanFrom_fault m (by simp only [INT_MAX]; omega) _ 0 _ _ (by omega) (by omega)
  refine ⟨scanLimit_short _ h, hloop, ?_⟩
  unfold detectFrame
  simp only [hloop]

/-- Claim C3 on the one-sample vector `[0]`: the loop bound is 4294967057 and the loop
reads `m[1]`. -/
theorem detectFrame_short_vector_overrun_witness :
    scanLimit [0].length = 2 ^ 32 - 240 + [0].length
      ∧ detectLoop [0] [0].length = .error (.readOutOfBounds [0].length)
      ∧ detectFrame [0] [0].length = .error (.readOutOfBounds [0].length) :=
  detectFrame_short_vector_overrun [0] (by decide)

/-- Two vectors of one length that agree below `n` have the same first `n` samples. -/
theorem take_eq_of_agree (m m2 : List Nat) (n : Nat)
    (hagree : ∀ i, i < n → m2[i]? = m[i]?) : m2.take n = m.take n := by
  apply List.ext_getElem?
  intro i
  rw [List.getElem?_take, List.getElem?_take]
  split
  · exact hagree i (by assumption)
  · rfl

/-- What `detectFrame` reports on a vector of 240 to `2^31 + 239` samples. -/
theorem detectFrame_eq (m : List Nat) (h240 : 240 ≤ m.length)
    (hlt : m.length < 2 ^ 31 + 240) :
    ∃ v0, m[0]? = some v0 ∧ detectFrame m m.length
      = .ok { bit0 := (runSamples Detector.init (m.take (m.length - 240))).bit0,
              nsilences := (runSamples Detector.init (m.take (m.length - 240))).nsilences,
              nons := (runSamples Detector.init (m.take (m.length - 240))).nons,
              noffs := (runSamples Detector.init (m.take (m.length - 240))).noffs,
              m0 := v0 } := by
  have h0 : 0 < m.length := by omega
  refine ⟨m[0], List.getElem?_eq_getElem h0, ?_⟩
  unfold detectFrame
  simp only [detectLoop_eq m h240 hlt, List.getElem?_eq_getElem h0]

/-- Claim C4. On a vector of `mlen` samples, `240 <= mlen < 2^31`, the scan loop ends
without a fault after reading exactly the indices `0 .. mlen-241`, and the reported
counters are the same for every vector of that length that agrees with it on those
indices, whatever its last 240 samples are. -/
theorem detectFrame_scan_bound (m : List Nat) (h240 : 240 ≤ m.length)
    (hlt : m.length < 2 ^ 31) :
    (∃ s, detectLoop m m.length = .ok (s, List.range (m.length - 240)))
      ∧ (∀ i ∈ List.range (m.length - 240), i < m.length)
      ∧ ∀ m2 : List Nat, m2.length = m.length →
          (∀ i, i < m.length - 240 → m2[i]? = m[i]?) →
          ∃ r r2, detectFrame m m.length = .ok r ∧ detectFrame m2 m2.length = .ok r2
            ∧ r2.bit0 = r.bit0 ∧ r2.nsilences = r.nsilences ∧ r2.nons = r.nons
            ∧ r2.noffs = r.noffs := by
  refine ⟨⟨_, detectLoop_eq m h240 (by omega)⟩, ?_, ?_⟩
  · intro i hi
    have := List.mem_range.mp hi
    omega
  · intro m2 hlen hagree
    obtain ⟨v0, _, hr⟩ := detectFrame_eq m h240 (by omega)
    obtain ⟨w0, _, hr2⟩ := detectFrame_eq m2 (by omega) (by omega)
    refine ⟨_, _, hr, hr2, ?_⟩
    rw [hlen, take_eq_of_agree m m2 _ hagree]
    exact ⟨rfl, rfl, rfl, rfl⟩

/-- Claim C4 on 300 samples of value 1000. -/
theorem detectFrame_scan_bound_witness :
    (∃ s, detectLoop (List.replicate 300 1000) (List.replicate 300 1000).length
        = .ok (s, List.range ((List.replicate 300 1000).length - 240)))
      ∧ (∀ i ∈ List.range ((List.replicate 300 1000).length - 240),
          i < (List.replicate 300 1000).length)
      ∧ ∀ m2 : List Nat, m2.length = (List.replicate 300 1000).length →
          (∀ i, i < (List.replicate 300 1000).length - 240 →
            m2[i]? = (List.replicate 300 1000)[i]?) →
          ∃ r r2, detectFrame (List.replicate 300 1000) (List.replicate 300 1000).length
              = .ok r ∧ detectFrame m2 m2.length = .ok r2
            ∧ r2.bit0 = r.bit0 ∧ r2.nsilences = r.nsilences ∧ r2.nons = r.nons
            ∧ r2.noffs = r.noffs :=
  detectFrame_scan_bound (List.replicate 300 1000) (by rw [List.length_replicate]; omega)
    (by rw [List.length_replicate]; omega)

/-- Claim C5. Whatever the locals are at the start of a loop iteration and whatever the
sample is, the three blocks of the loop body change `state` at most once. -/
theorem stateChanges_le_one (s : Detector) (v : Nat) : stateChanges s v ≤ 1 := by
  have h3 : (if (block2 (block1 (block0 s v) v) v).state = (block1 (block0 s v) v).state
      then 0 else 1) ≤ 1 := by
    split <;> omega
  unfold stateChanges
  rcases block0_state s v with h | ⟨h0, h1, hn⟩
  · rw [if_pos h]
    rcases block1_state (block0 s v) v with k | ⟨_, k2, kz⟩
    · rw [if_pos k]
      omega
    · rw [if_pos (block2_of_noff_zero _ v kz)]
      split <;> omega
  · rw [if_pos (block1_of_non_zero _ v hn),
      if_pos (congrArg Detector.state (block2_of_state_ne _ v
        (by rw [block1_of_non_zero _ v hn, h1]; decide)))]
    split <;> omega

/-- Claim C6. On a vector of at least 240 samples (and few enough for the `int` index,
as every vector of `data_len/2` samples is), all strictly between the silence ceiling 800
and the on floor 30000, `detectFrame` reports no bit event and no silence run. -/
theorem detectFrame_mid_level (m : List Nat) (h240 : 240 ≤ m.length)
    (hlt : m.length < 2 ^ 31 + 240) (hmid : ∀ v ∈ m, 800 < v ∧ v < 30000) :
    ∃ r, detectFrame m m.length = .ok r ∧ r.bit0 = 0 ∧ r.nsilences = 0 := by
  obtain ⟨v0, _, hr⟩ := detectFrame_eq m h240 hlt
  have hidle : runSamples Detector.init (m.take (m.length - 240)) = Detector.init :=
    runSamples_idle _ Detector.init rfl rfl (by simp only [Detector.init]; omega)
      (fun v hv => (hmid v (List.mem_of_mem_take hv)).1)
  rw [hidle] at hr
  exact ⟨_, hr, rfl, rfl⟩

/-- Claim C6 on 300 samples of value 1000. -/
theorem detectFrame_mid_level_witness :
    ∃ r, detectFrame (List.replicate 300 1000) (List.replicate 300 1000).length = .ok r
      ∧ r.bit0 = 0 ∧ r.nsilences = 0 :=
  detectFrame_mid_level (List.replicate 300 1000) (by rw [List.length_replicate]; omega)
    (by rw [List.length_replicate]; omega) (forall_mem_replicate _ _ _ (by omega))

/-! ## Lemmas on the sample buffer -/

theorem MODES_DATA_LEN_eq : MODES_DATA_LEN = 262144 := rfl

theorem carry_len_eq : (MODES_FULL_LEN - 1) * 4 = 476 := rfl

theorem memcpy_ok (dst : List Nat) (doff : Nat) (src : List Nat) (soff n : Nat)
    (hsrc : soff + n ≤ src.length) (hdst : doff + n ≤ dst.length) :
    memcpy dst doff src soff n
      = .ok (dst.take doff ++ (src.drop soff).take n ++ dst.drop (doff + n)) := by
  unfold memcpy
  rw [if_neg (by omega), if_neg (by omega)]

/-- The two copies of the callback on lists: with `data` of `D + K` bytes, moving the last
`K` bytes to the front and then copying `n <= D` bytes of `buf` after them gives the old
tail, the chunk and the untouched rest. -/
theorem carry_then_copy (data buf : List Nat) (D K n : Nat) (hlen : data.length = D + K) :
    (data.take 0 ++ (data.drop D).take K ++ data.drop (0 + K)).take K
        ++ (buf.drop 0).take n
        ++ (data.take 0 ++ (data.drop D).take K ++ data.drop (0 + K)).drop (K + n)
      = data.drop D ++ buf.take n ++ data.drop (K + n) := by
  have hdl : (data.drop D).length = K := by rw [List.length_drop]; omega
  have h1 : (data.drop D).take K = data.drop D := List.take_of_length_le (by omega)
  have ht : (data.drop D ++ data.drop K).take K = data.drop D := List.take_left' hdl
  have hd : (data.drop D ++ data.drop K).drop (K + n) = data.drop (K + n) := by
    have h : (data.drop D ++ data.drop K).drop ((data.drop D).length + n)
        = (data.drop K).drop n := List.drop_append n
    rw [hdl] at h
    rw [h, List.drop_drop]
  simp only [List.take_zero, List.nil_append, Nat.zero_add, List.drop_zero, h1, ht, hd]

theorem rtlsdrCallback_eq (buf : List Nat) (len : Nat) (ctx : ctx_t)
    (hcap : ctx.data.length = MODES_DATA_LEN + (MODES_FULL_LEN - 1) * 4)
    (hbuf : min len MODES_DATA_LEN ≤ buf.length) :
    rtlsdrCallback buf len ctx
      = .ok { ctx with
              data := ctx.data.drop MODES_DATA_LEN ++ buf.take (min len MODES_DATA_LEN)
                ++ ctx.data.drop ((MODES_FULL_LEN - 1) * 4 + min len MODES_DATA_LEN),
              data_ready := 1 } := by
  have hclamp : (if len > MODES_DATA_LEN then MODES_DATA_LEN else len)
      = min len MODES_DATA_LEN := by
    split <;> omega
  have hK : (MODES_FULL_LEN - 1) * 4 ≤ MODES_DATA_LEN := by decide
  have hmin : min len MODES_DATA_LEN ≤ MODES_DATA_LEN := Nat.min_le_right _ _
  unfold rtlsdrCallback
  simp only [hclamp]
  rw [memcpy_ok _ _ _ _ _ (by omega) (by omega)]
  simp only
  rw [memcpy_ok _ _ _ _ _ (by omega)
    (by simp only [List.length_append, List.length_take, List.length_drop]; omega)]
  simp only [carry_then_copy ctx.data buf _ _ _ hcap]

/-- The callback on a chunk of exactly `MODES_DATA_LEN` bytes: the buffer becomes its old
tail followed by the chunk. -/
theorem rtlsdrCallback_full (A : List Nat) (ctx : ctx_t)
    (hcap : ctx.data.length = MODES_DATA_LEN + (MODES_FULL_LEN - 1) * 4)
    (hA : A.length = MODES_DATA_LEN) :
    rtlsdrCallback A A.length ctx
      = .ok { ctx with data := ctx.data.drop MODES_DATA_LEN ++ A, data_ready := 1 } := by
  have htake : A.take MODES_DATA_LEN = A := List.take_of_length_le (by omega)
  have hdrop : ctx.data.drop ((MODES_FULL_LEN - 1) * 4 + MODES_DATA_LEN) = [] :=
    List.drop_of_length_le (by omega)
  rw [rtlsdrCallback_eq A A.length ctx hcap (Nat.min_le_left _ _), hA, Nat.min_self, htake,
    hdrop, List.append_nil]

theorem initCtx_data_length (magnitude maglut : List Nat) :
    (initCtx magnitude maglut).data.length = MODES_DATA_LEN + (MODES_FULL_LEN - 1) * 4 := by
  unfold initCtx
  exact List.length_replicate _ _

/-! ## Claims on the sample buffer -/

/-- Claim C7. With a buffer of `MODES_DATA_LEN + (MODES_FULL_LEN-1)*4` bytes, after any
call of the callback the first `(MODES_FULL_LEN-1)*4` bytes of the buffer are the last
`(MODES_FULL_LEN-1)*4` bytes it held before; and after two calls with chunks `A` and `B`
of `MODES_DATA_LEN` bytes the buffer is the last `(MODES_FULL_LEN-1)*4` bytes of `A`
followed by `B`. -/
theorem rtlsdrCallback_carry_over (ctx : ctx_t)
    (hcap : ctx.data.length = MODES_DATA_LEN + (MODES_FULL_LEN - 1) * 4) :
    (∀ (buf : List Nat) (len : Nat), len ≤ buf.length →
        ∃ ctx1, rtlsdrCallback buf len ctx = .ok ctx1
          ∧ ctx1.data.take ((MODES_FULL_LEN - 1) * 4)
              = ctx.data.drop (ctx.data.length - (MODES_FULL_LEN - 1) * 4))
      ∧ (∀ A B : List Nat, A.length = MODES_DATA_LEN → B.length = MODES_DATA_LEN →
          ∃ ctx1 ctx2, rtlsdrCallback A A.length ctx = .ok ctx1
            ∧ rtlsdrCallback B B.length ctx1 = .ok ctx2
            ∧ ctx2.data = A.drop (A.length - (MODES_FULL_LEN - 1) * 4) ++ B) := by
  have hK : (MODES_FULL_LEN - 1) * 4 ≤ MODES_DATA_LEN := by decide
  have htail : ctx.data.length - (MODES_FULL_LEN - 1) * 4 = MODES_DATA_LEN := by omega
  have hdl : (ctx.data.drop MODES_DATA_LEN).length = (MODES_FULL_LEN - 1) * 4 := by
    rw [List.length_drop]
    omega
  constructor
  · intro buf len hlen
    refine ⟨_, rtlsdrCallback_eq buf len ctx hcap
      (Nat.le_trans (Nat.min_le_left _ _) hlen), ?_⟩
    simp only [htail, List.append_assoc]
    exact List.take_left' hdl
  · intro A B hA hB
    have hcap1 : (ctx.data.drop MODES_DATA_LEN ++ A).length
        = MODES_DATA_LEN + (MODES_FULL_LEN - 1) * 4 := by
      rw [List.length_append, hdl, hA]
      omega
    refine ⟨_, _, rtlsdrCallback_full A ctx hcap hA,
      rtlsdrCallback_full B
        { ctx with data := ctx.data.drop MODES_DATA_LEN ++ A, data_ready := 1 } hcap1 hB, ?_⟩
    have hnil : (ctx.data.drop MODES_DATA_LEN).drop MODES_DATA_LEN = [] :=
      List.drop_of_length_le (by omega)
    simp only [List.drop_append_eq_append_drop, hnil, hdl, hA, List.nil_append]

/-- Claim C7 on the buffer as `main` initialises it (all bytes 127) and a chunk of three
bytes. -/
theorem rtlsdrCallback_carry_over_witness :
    ∃ ctx1, rtlsdrCallback [1, 2, 3] 3 (initCtx [] []) = .ok ctx1
      ∧ ctx1.data.take ((MODES_FULL_LEN - 1) * 4)
          = (initCtx [] []).data.drop
              ((initCtx [] []).data.length - (MODES_FULL_LEN - 1) * 4) :=
  (rtlsdrCallback_carry_over (initCtx [] []) (initCtx_data_length [] [])).1 [1, 2, 3] 3
    (Nat.le_refl 3)

/-- Claim C8. A chunk longer than `MODES_DATA_LEN` is cut to its first `MODES_DATA_LEN`
bytes: the callback ends without a fault (no byte is written outside the buffer), the
buffer is its old tail followed by those bytes, and its length is unchanged. -/
theorem rtlsdrCallback_truncates (buf : List Nat) (len : Nat) (ctx : ctx_t)
    (hcap : ctx.data.length = MODES_DATA_LEN + (MODES_FULL_LEN - 1) * 4)
    (hlen : MODES_DATA_LEN < len) (hbuf : len ≤ buf.length) :
    ∃ ctx1, rtlsdrCallback buf len ctx = .ok ctx1
      ∧ ctx1.data = ctx.data.drop MODES_DATA_LEN ++ buf.take MODES_DATA_LEN
      ∧ ctx1.data.length = ctx.data.length
      ∧ ctx1.data_len = ctx.data_len := by
  have hmin : min len MODES_DATA_LEN = MODES_DATA_LEN := Nat.min_eq_right (by omega)
  have hdrop : ctx.data.drop ((MODES_FULL_LEN - 1) * 4 + MODES_DATA_LEN) = [] :=
    List.drop_of_length_le (by omega)
  have e := rtlsdrCallback_eq buf len ctx hcap (by omega)
  rw [hmin, hdrop, List.append_nil] at e
  refine ⟨_, e, rfl, ?_, rfl⟩
  simp only [List.length_append, List.length_drop, List.length_take]
  omega

/-- Claim C9. Whatever the ready flag was, the callback ends with the first
`n = min(len, MODES_DATA_LEN)` bytes of the chunk at offsets `476 .. 476+n-1`
(`476 = (MODES_FULL_LEN-1)*4`), the bytes from offset `476+n` on unchanged and
`data_ready = 1`; the result is the same for every previous value of the flag. -/
theorem rtlsdrCallback_placement (buf : List Nat) (len : Nat) (ctx : ctx_t)
    (hcap : ctx.data.length = MODES_DATA_LEN + (MODES_FULL_LEN - 1) * 4)
    (hbuf : min len MODES_DATA_LEN ≤ buf.length) :
    ∃ ctx1, rtlsdrCallback buf len ctx = .ok ctx1
      ∧ (∀ i, i < min len MODES_DATA_LEN →
          ctx1.data[(MODES_FULL_LEN - 1) * 4 + i]? = buf[i]?)
      ∧ (∀ i, (MODES_FULL_LEN - 1) * 4 + min len MODES_DATA_LEN ≤ i →
          ctx1.data[i]? = ctx.data[i]?)
      ∧ ctx1.data_ready = 1
      ∧ ∀ r : Int, rtlsdrCallback buf len { ctx with data_ready := r } = .ok ctx1 := by
  have hK : (MODES_FULL_LEN - 1) * 4 ≤ MODES_DATA_LEN := by decide
  have hmin : min len MODES_DATA_LEN ≤ MODES_DATA_LEN := Nat.min_le_right _ _
  have hdl : (ctx.data.drop MODES_DATA_LEN).length = (MODES_FULL_LEN - 1) * 4 := by
    rw [List.length_drop]
    omega
  have htl : (buf.take (min len MODES_DATA_LEN)).length = min len MODES_DATA_LEN := by
    rw [List.length_take]
    omega
  refine ⟨_, rtlsdrCallback_eq buf len ctx hcap hbuf, ?_, ?_, rfl, ?_⟩
  · intro i hi
    simp only [List.append_assoc]
    rw [List.getElem?_append_right (by omega), hdl, Nat.add_sub_cancel_left,
      List.getElem?_append_left (by omega), List.getElem?_take, if_pos hi]
  · intro i hi
    rw [List.getElem?_append_right
      (by rw [List.length_append, hdl, htl]; exact hi), List.length_append, hdl, htl,
      List.getElem?_drop]
    congr 1
    omega
  · intro r
    exact rtlsdrCallback_eq buf len { ctx with data_ready := r } hcap hbuf

/-- Claim C8 on the buffer as `main` initialises it and a chunk of `MODES_DATA_LEN + 1`
bytes. -/
theorem rtlsdrCallback_truncates_witness :
    ∃ ctx1,
      rtlsdrCallback (List.replicate (MODES_DATA_LEN + 1) 9) (MODES_DATA_LEN + 1)
          (initCtx [] []) = .ok ctx1
        ∧ ctx1.data = (initCtx [] []).data.drop MODES_DATA_LEN
            ++ (List.replicate (MODES_DATA_LEN + 1) 9).take MODES_DATA_LEN
        ∧ ctx1.data.length = (initCtx [] []).data.length
        ∧ ctx1.data_len = (initCtx [] []).data_len :=
  rtlsdrCallback_truncates (List.replicate (MODES_DATA_LEN + 1) 9) (MODES_DATA_LEN + 1)
    (initCtx [] []) (initCtx_data_length [] []) (Nat.lt_succ_self _)
    (Nat.le_of_eq (List.length_replicate _ _).symm)

/-- Claim C9 on the buffer as `main` initialises it and a chunk of three bytes. -/
theorem rtlsdrCallback_placement_witness :
    ∃ ctx1, rtlsdrCallback [1, 2, 3] 3 (initCtx [] []) = .ok ctx1
      ∧ (∀ i, i < min 3 MODES_DATA_LEN →
          ctx1.data[(MODES_FULL_LEN - 1) * 4 + i]? = [1, 2, 3][i]?)
      ∧ (∀ i, (MODES_FULL_LEN - 1) * 4 + min 3 MODES_DATA_LEN ≤ i →
          ctx1.data[i]? = (initCtx [] []).data[i]?)
      ∧ ctx1.data_ready = 1
      ∧ ∀ r : Int,
          rtlsdrCallback [1, 2, 3] 3 { initCtx [] [] with data_ready := r } = .ok ctx1 :=
  rtlsdrCallback_placement [1, 2, 3] 3 (initCtx [] []) (initCtx_data_length [] [])
    (Nat.min_le_left 3 MODES_DATA_LEN)

/-! ## Lemmas on the magnitude computation -/

/-- The index that the loop body computes with `int` arithmetic is `maglutIndex`. -/
theorem index_eq_maglutIndex (s0 s1 : Nat) :
    ((if (s0 : Int) - 127 < 0 then -((s0 : Int) - 127) else (s0 : Int) - 127) * 129
        + (if (s1 : Int) - 127 < 0 then -((s1 : Int) - 127) else (s1 : Int) - 127)).toNat
      = maglutIndex s0 s1 := by
  unfold maglutIndex
  split <;> split <;> omega

/-- For bytes the table index is inside the 129 x 129 table. -/
theorem maglutIndex_lt (s0 s1 : Nat) (h0 : s0 < 256) (h1 : s1 < 256) :
    maglutIndex s0 s1 < 129 * 129 := by
  unfold maglutIndex
  omega

theorem magLoop_spec (p lut : List Nat) (hbytes : ∀ b ∈ p, b < 256)
    (hlut : lut.length = 129 * 129) :
    ∀ (n k0 : Nat) (m : List Nat), 2 * (k0 + n) ≤ p.length → 2 * (k0 + n) < 2 ^ 32 →
      k0 + n ≤ m.length →
      ∃ m2, magLoop p lut n (2 * k0) m = .ok m2 ∧ m2.length = m.length
        ∧ (∀ k, k0 ≤ k → k < k0 + n →
            ∃ s0 s1, p[2 * k]? = some s0 ∧ p[2 * k + 1]? = some s1
              ∧ m2[k]? = lut[maglutIndex s0 s1]?)
        ∧ (∀ k, k < k0 ∨ k0 + n ≤ k → m2[k]? = m[k]?) := by
  intro n
  induction n with
  | zero =>
    intro k0 m _ _ _
    refine ⟨m, rfl, rfl, ?_, fun _ _ => rfl⟩
    intro k h1 h2
    omega
  | succ n ih =>
    intro k0 m hp h32 hm
    have hj0 : 2 * k0 < p.length := by omega
    have hj1 : 2 * k0 + 1 < p.length := by omega
    have hb0 : p[2 * k0] < 256 := hbytes _ (List.getElem_mem _)
    have hb1 : p[2 * k0 + 1] < 256 := hbytes _ (List.getElem_mem _)
    have hidx : maglutIndex p[2 * k0] p[2 * k0 + 1] < lut.length := by
      rw [hlut]
      exact maglutIndex_lt _ _ hb0 hb1
    have hk0 : 2 * k0 / 2 = k0 := by omega
    have hnext : 2 * k0 + 2 = 2 * (k0 + 1) := by omega
    obtain ⟨m2, hrun, hlen, hval, hframe⟩ :=
      ih (k0 + 1) (m.set k0 (lut[maglutIndex p[2 * k0] p[2 * k0 + 1]])) (by omega) (by omega)
        (by rw [List.length_set]; omega)
    refine ⟨m2, ?_, by rw [hlen, List.length_set], ?_, ?_⟩
    · rw [magLoop]
      simp only [List.getElem?_eq_getElem hj0, List.getElem?_eq_getElem hj1,
        index_eq_maglutIndex, List.getElem?_eq_getElem hidx, hk0, hnext]
      rw [if_neg (by omega), if_neg (by omega)]
      exact hrun
    · intro k h1 h2
      rcases Nat.eq_or_lt_of_le h1 with rfl | hlt
      · refine ⟨_, _, List.getElem?_eq_getElem hj0, List.getElem?_eq_getElem hj1, ?_⟩
        rw [hframe k0 (Or.inl (by omega)), List.getElem?_set_self (by omega),
          List.getElem?_eq_getElem hidx]
      · exact hval k (by omega) (by omega)
    · intro k hk
      rw [hframe k (by omega), List.getElem?_set_ne (by omega)]

/-! ## Claims on the magnitude computation -/

/-- Claim C10. For a raw buffer of even length `N = data_len` (bytes, so below 256), a
table of 129 x 129 entries and a magnitude block with room for `N/2` entries,
`computeMagnitudeVector` ends without a fault, entry `k < N/2` of the magnitude block is
the table entry at `|p[2k] - 127| * 129 + |p[2k+1] - 127|`, the entries from `N/2` on
and the length of the block are unchanged, and nothing else in the context changes. -/
theorem computeMagnitudeVector_spec (ctx : ctx_t) (heven : ctx.data_len % 2 = 0)
    (h32 : ctx.data_len < 2 ^ 32) (hdata : ctx.data_len ≤ ctx.data.length)
    (hbytes : ∀ b ∈ ctx.data, b < 256) (hlut : ctx.maglut.length = 129 * 129)
    (hmag : ctx.data_len / 2 ≤ ctx.magnitude.length) :
    ∃ m2, computeMagnitudeVector ctx = .ok { ctx with magnitude := m2 }
      ∧ m2.length = ctx.magnitude.length
      ∧ (∀ k, k < ctx.data_len / 2 →
          ∃ s0 s1, ctx.data[2 * k]? = some s0 ∧ ctx.data[2 * k + 1]? = some s1
            ∧ m2[k]? = ctx.maglut[maglutIndex s0 s1]?)
      ∧ (∀ k, ctx.data_len / 2 ≤ k → m2[k]? = ctx.magnitude[k]?) := by
  have hcount : (ctx.data_len + 1) / 2 = ctx.data_len / 2 := by omega
  obtain ⟨m2, hrun, hlen, hval, hframe⟩ :=
    magLoop_spec ctx.data ctx.maglut hbytes hlut (ctx.data_len / 2) 0 ctx.magnitude
      (by omega) (by omega) (by omega)
  refine ⟨m2, ?_, hlen, ?_, ?_⟩
  · unfold computeMagnitudeVector
    rw [hcount]
    rw [Nat.mul_zero] at hrun
    rw [hrun]
  · intro k hk
    exact hval k (Nat.zero_le k) (by omega)
  · intro k hk
    exact hframe k (Or.inr (by omega))

/-- Claim C10 on `sampleCtx`: the two-byte buffer `[130, 123]`, a two-entry magnitude
block and the table that holds its own index at every entry. -/
theorem computeMagnitudeVector_spec_witness :
    ∃ m2, computeMagnitudeVector sampleCtx = .ok { sampleCtx with magnitude := m2 }
      ∧ m2.length = sampleCtx.magnitude.length
      ∧ (∀ k, k < sampleCtx.data_len / 2 →
          ∃ s0 s1, sampleCtx.data[2 * k]? = some s0 ∧ sampleCtx.data[2 * k + 1]? = some s1
            ∧ m2[k]? = sampleCtx.maglut[maglutIndex s0 s1]?)
      ∧ (∀ k, sampleCtx.data_len / 2 ≤ k → m2[k]? = sampleCtx.magnitude[k]?) :=
  computeMagnitudeVector_spec sampleCtx (by decide) (by decide) (by decide) (by decide)
    (by simp only [sampleCtx, List.length_range]) (by decide)

/-! ## Lemmas on the lookup table -/

theorem roundSqrt360_mono {a b : Nat} (h : a ≤ b) : roundSqrt360 a ≤ roundSqrt360 b := by
  unfold roundSqrt360
  have h1 : Nat.sqrt (720 * 720 * a) ≤ Nat.sqrt (720 * 720 * b) :=
    Nat.sqrt_le_sqrt (Nat.mul_le_mul_left _ h)
  omega

/-- Upper margin of the rounding: with `e = roundSqrt360 n`,
`(720 * sqrt n)^2 <= (2e + 1)^2 - 1`. -/
theorem roundSqrt360_upper (n : Nat) :
    720 * 720 * n ≤ 4 * (roundSqrt360 n * roundSqrt360 n) + 4 * roundSqrt360 n := by
  have hlt := Nat.lt_succ_sqrt (720 * 720 * n)
  have hr : Nat.sqrt (720 * 720 * n) + 1 ≤ 2 * roundSqrt360 n + 1 := by
    unfold roundSqrt360
    omega
  have hsq := Nat.mul_le_mul hr hr
  have e : (2 * roundSqrt360 n + 1) * (2 * roundSqrt360 n + 1)
      = 4 * (roundSqrt360 n * roundSqrt360 n) + 4 * roundSqrt360 n + 1 := by ring
  rw [Nat.succ_eq_add_one] at hlt
  omega

/-- Lower margin of the rounding: with `e = roundSqrt360 n > 0`,
`(2e - 1)^2 + 1 <= (720 * sqrt n)^2`. -/
theorem roundSqrt360_lower (n : Nat) (he : 0 < roundSqrt360 n) :
    4 * (roundSqrt360 n * roundSqrt360 n) + 2 ≤ 720 * 720 * n + 4 * roundSqrt360 n := by
  have hle := Nat.sqrt_le (720 * 720 * n)
  obtain ⟨k, hk⟩ : ∃ k, roundSqrt360 n = k + 1 := ⟨roundSqrt360 n - 1, by omega⟩
  have hr : Nat.sqrt (720 * 720 * n) = 2 * k + 1 ∨ Nat.sqrt (720 * 720 * n) = 2 * k + 2 := by
    unfold roundSqrt360 at hk
    omega
  rw [hk]
  rcases hr with hr | hr
  · rw [hr] at hle
    have e1 : (2 * k + 1) * (2 * k + 1) = 4 * (k * k) + 4 * k + 1 := by ring
    have e2 : (k + 1) * (k + 1) = k * k + 2 * k + 1 := by ring
    omega
  · rw [hr] at hle
    have e1 : (2 * k + 2) * (2 * k + 2) = 4 * (k * k) + 8 * k + 4 := by ring
    have e2 : (k + 1) * (k + 1) = k * k + 2 * k + 1 := by ring
    omega

theorem roundSqrt360_zero : roundSqrt360 0 = 0 := by
  unfold roundSqrt360
  simp

theorem roundSqrt360_of_sqrt (n r : Nat) (h1 : r * r ≤ 720 * 720 * n)
    (h2 : 720 * 720 * n < (r + 1) * (r + 1)) : roundSqrt360 n = (r + 1) / 2 := by
  unfold roundSqrt360
  rw [← Nat.eq_sqrt.2 ⟨h1, h2⟩]

theorem roundSqrt360_25 : roundSqrt360 25 = 1800 :=
  roundSqrt360_of_sqrt 25 3600 (by norm_num) (by norm_num)

theorem roundSqrt360_32400 : roundSqrt360 32400 = 64800 :=
  roundSqrt360_of_sqrt 32400 129600 (by norm_num) (by norm_num)

theorem roundSqrt360_32513 : roundSqrt360 32513 = 64913 :=
  roundSqrt360_of_sqrt 32513 129825 (by norm_num) (by norm_num)

theorem roundSqrt360_32768 : roundSqrt360 32768 = 65167 :=
  roundSqrt360_of_sqrt 32768 130333 (by norm_num) (by norm_num)

theorem sum_sq_le (i q : Nat) (hi : i ≤ 128) (hq : q ≤ 128) : i * i + q * q ≤ 32768 := by
  have h1 := Nat.mul_le_mul hi hi
  have h2 := Nat.mul_le_mul hq hq
  omega

theorem roundSqrt360_le (n : Nat) (h : n ≤ 32768) : roundSqrt360 n ≤ 65167 := by
  rw [← roundSqrt360_32768]
  exact roundSqrt360_mono h

/-- Below `180^2` the scaled square roots of consecutive naturals are at least 1 apart,
so their roundings differ. -/
theorem roundSqrt360_strict (a b : Nat) (hab : a < b) (hb : b ≤ 32400) :
    roundSqrt360 a < roundSqrt360 b := by
  have hle := Nat.sqrt_le (720 * 720 * a)
  have hr : Nat.sqrt (720 * 720 * a) < 129600 := by
    rw [Nat.sqrt_lt]
    omega
  have h2 : Nat.sqrt (720 * 720 * a) + 2 ≤ Nat.sqrt (720 * 720 * b) := by
    rw [Nat.le_sqrt]
    have e : (Nat.sqrt (720 * 720 * a) + 2) * (Nat.sqrt (720 * 720 * a) + 2)
        = Nat.sqrt (720 * 720 * a) * Nat.sqrt (720 * 720 * a)
          + 4 * Nat.sqrt (720 * 720 * a) + 4 := by ring
    omega
  unfold roundSqrt360
  omega

/-- The inner loop of the table construction: the entries `j*129 + q .. j*129 + 128` get
their values, the block keeps its length and every other entry. -/
theorem fillRow_spec (j : Nat) (hj : j ≤ 128) :
    ∀ (n q : Nat) (t : List Nat), q + n = 129 → t.length = 129 * 129 →
      ∃ t2, fillRow j n q t = .ok t2 ∧ t2.length = 129 * 129
        ∧ (∀ k, q ≤ k → k < 129 →
            t2[j * 129 + k]? = some (roundSqrt360 (j * j + k * k) % 2 ^ 16))
        ∧ (∀ idx, idx < j * 129 + q ∨ j * 129 + 129 ≤ idx → t2[idx]? = t[idx]?) := by
  intro n
  induction n with
  | zero =>
    intro q t hq hlen
    refine ⟨t, rfl, hlen, ?_, fun _ _ => rfl⟩
    intro k h1 h2
    omega
  | succ n ih =>
    intro q t hq hlen
    obtain ⟨t2, hrun, hlen2, hval, hframe⟩ :=
      ih (q + 1) (t.set (j * 129 + q) (roundSqrt360 (j * j + q * q) % 2 ^ 16)) (by omega)
        (by rw [List.length_set]; exact hlen)
    refine ⟨t2, ?_, hlen2, ?_, ?_⟩
    · rw [fillRow, if_neg (by omega)]
      exact hrun
    · intro k h1 h2
      rcases Nat.eq_or_lt_of_le h1 with rfl | hlt
      · rw [hframe (j * 129 + q) (Or.inl (by omega)), List.getElem?_set_self (by omega)]
      · exact hval k (by omega) h2
    · intro idx hidx
      rw [hframe idx (by omega), List.getElem?_set_ne (by omega)]

/-- The outer loop of the table construction: the rows `j .. 128` get their values, the
block keeps its length and the rows before `j`. -/
theorem fillTable_spec :
    ∀ (n j : Nat) (t : List Nat), j + n = 129 → t.length = 129 * 129 →
      ∃ t2, fillTable n j t = .ok t2 ∧ t2.length = 129 * 129
        ∧ (∀ i k, j ≤ i → i < 129 → k < 129 →
            t2[i * 129 + k]? = some (roundSqrt360 (i * i + k * k) % 2 ^ 16))
        ∧ (∀ idx, idx < j * 129 → t2[idx]? = t[idx]?) := by
  intro n
  induction n with
  | zero =>
    intro j t hj hlen
    refine ⟨t, rfl, hlen, ?_, fun _ _ => rfl⟩
    intro i k h1 h2
    omega
  | succ n ih =>
    intro j t hj hlen
    obtain ⟨t1, hrow, hlen1, hval1, hframe1⟩ := fillRow_spec j (by omega) 129 0 t rfl hlen
    obtain ⟨t2, hrun, hlen2, hval2, hframe2⟩ := ih (j + 1) t1 (by omega) hlen1
    refine ⟨t2, ?_, hlen2, ?_, ?_⟩
    · rw [fillTable, hrow]
      exact hrun
    · intro i k h1 h2 h3
      rcases Nat.eq_or_lt_of_le h1 with rfl | hlt
      · rw [hframe2 (j * 129 + k) (by omega)]
        exact hval1 k (Nat.zero_le k) h3
      · exact hval2 i k (by omega) h2 h3
    · intro idx hidx
      rw [hframe2 idx (by omega), hframe1 idx (Or.inl (by omega))]

/-- The table that `main` builds: on a block of 129 * 129 entries the construction ends
without a fault and entry `i*129 + q` is `roundSqrt360 (i*i + q*q)`, for `i, q <= 128`;
the conversion to `uint16_t` changes no value. -/
theorem buildMaglut_spec (block : List Nat) (hlen : block.length = 129 * 129) :
    ∃ t, buildMaglut block = .ok t ∧ t.length = 129 * 129
      ∧ ∀ i q, i ≤ 128 → q ≤ 128 → t[i * 129 + q]? = some (roundSqrt360 (i * i + q * q)) := by
  obtain ⟨t, hrun, hlen2, hval, _⟩ := fillTable_spec 129 0 block rfl hlen
  refine ⟨t, hrun, hlen2, ?_⟩
  intro i q hi hq
  have hb := roundSqrt360_le _ (sum_sq_le i q hi hq)
  rw [hval i q (Nat.zero_le i) (by omega) (by omega), Nat.mod_eq_of_lt (by omega)]

/-- The rounded value is within 1/2 of `360 * sqrt n`. -/
theorem roundSqrt360_near (n : Nat) :
    |(roundSqrt360 n : ℝ) - 360 * Real.sqrt n| < 1 / 2 := by
  have hr0 : 0 ≤ Real.sqrt (n : ℝ) := Real.sqrt_nonneg _
  have hr2 : Real.sqrt (n : ℝ) * Real.sqrt (n : ℝ) = n :=
    Real.mul_self_sqrt (Nat.cast_nonneg n)
  have hup : (720 * 720 * n : ℝ)
      ≤ 4 * ((roundSqrt360 n : ℝ) * roundSqrt360 n) + 4 * roundSqrt360 n := by
    exact_mod_cast roundSqrt360_upper n
  have he0 : (0 : ℝ) ≤ roundSqrt360 n := Nat.cast_nonneg _
  rw [abs_lt]
  constructor
  · by_contra hcon
    have hge : (roundSqrt360 n : ℝ) + 1 / 2 ≤ 360 * Real.sqrt (n : ℝ) := by linarith
    have hsq : ((roundSqrt360 n : ℝ) + 1 / 2) * ((roundSqrt360 n : ℝ) + 1 / 2)
        ≤ (360 * Real.sqrt (n : ℝ)) * (360 * Real.sqrt (n : ℝ)) :=
      mul_self_le_mul_self (by positivity) hge
    nlinarith
  · rcases Nat.eq_zero_or_pos (roundSqrt360 n) with h0 | hpos
    · rw [h0]
      simp only [Nat.cast_zero, zero_sub]
      linarith
    · have hlo : (4 * ((roundSqrt360 n : ℝ) * roundSqrt360 n) + 2 : ℝ)
          ≤ 720 * 720 * n + 4 * roundSqrt360 n := by
        exact_mod_cast roundSqrt360_lower n hpos
      have h1 : (1 : ℝ) ≤ roundSqrt360 n := by exact_mod_cast hpos
      by_contra hcon
      have hle : 360 * Real.sqrt (n : ℝ) ≤ (roundSqrt360 n : ℝ) - 1 / 2 := by linarith
      have hsq : (360 * Real.sqrt (n : ℝ)) * (360 * Real.sqrt (n : ℝ))
          ≤ ((roundSqrt360 n : ℝ) - 1 / 2) * ((roundSqrt360 n : ℝ) - 1 / 2) :=
        mul_self_le_mul_self (by positivity) hle
      nlinarith

/-- The `double` evaluation of `round(sqrt(n)*360)` gives `roundSqrt360 n`: whenever
`s` is `sqrt n` up to the relative error `2^-53` of one correctly rounded operation and
`p` is `s * 360` up to the same relative error, rounding `p` to the nearest integer
gives `roundSqrt360 n`, for every `n` up to `2 * 128^2`. -/
theorem roundSqrt360_of_rounded (n : Nat) (hn : n ≤ 32768) (s p : ℝ)
    (hs : |s - Real.sqrt n| ≤ Real.sqrt n / 2 ^ 53)
    (hp : |p - s * 360| ≤ |s * 360| / 2 ^ 53) :
    round p = (roundSqrt360 n : ℤ) := by
  have hr0 : 0 ≤ Real.sqrt (n : ℝ) := Real.sqrt_nonneg _
  have hr2 : Real.sqrt (n : ℝ) * Real.sqrt (n : ℝ) = n :=
    Real.mul_self_sqrt (Nat.cast_nonneg n)
  have hn2 : (n : ℝ) ≤ 32768 := by exact_mod_cast hn
  have hr182 : Real.sqrt (n : ℝ) ≤ 182 := by
    by_contra hc
    have h1 : (182 : ℝ) * 182 ≤ Real.sqrt (n : ℝ) * Real.sqrt (n : ℝ) :=
      mul_self_le_mul_self (by norm_num) (by linarith)
    linarith
  have hu : Real.sqrt (n : ℝ) / 2 ^ 53 ≤ 182 / 10 ^ 15 := by
    rw [div_le_div_iff₀ (by positivity) (by positivity)]
    nlinarith
  obtain ⟨hs1, hs2⟩ := abs_le.1 hs
  have hs0 : 0 ≤ s := by
    have : Real.sqrt (n : ℝ) / 2 ^ 53 ≤ Real.sqrt (n : ℝ) :=
      div_le_self hr0 (by norm_num)
    linarith
  have hs183 : s ≤ 183 := by linarith
  rw [abs_of_nonneg (mul_nonneg hs0 (by norm_num : (0 : ℝ) ≤ 360))] at hp
  have hu2 : s * 360 / 2 ^ 53 ≤ 65880 / 10 ^ 15 := by
    rw [div_le_div_iff₀ (by positivity) (by positivity)]
    nlinarith
  obtain ⟨hp1, hp2⟩ := abs_le.1 hp
  have hpx1 : 360 * Real.sqrt (n : ℝ) - 1 / 10 ^ 7 ≤ p := by
    norm_num at hu hu2 ⊢
    linarith
  have hpx2 : p ≤ 360 * Real.sqrt (n : ℝ) + 1 / 10 ^ 7 := by
    norm_num at hu hu2 ⊢
    linarith
  have hx2 : (360 * Real.sqrt (n : ℝ)) * (360 * Real.sqrt (n : ℝ)) = 129600 * n := by
    nlinarith
  have hup : (720 * 720 * n : ℝ)
      ≤ 4 * ((roundSqrt360 n : ℝ) * roundSqrt360 n) + 4 * roundSqrt360 n := by
    exact_mod_cast roundSqrt360_upper n
  have he0 : (0 : ℝ) ≤ roundSqrt360 n := Nat.cast_nonneg _
  have he1 : (roundSqrt360 n : ℝ) ≤ 65167 := by exact_mod_cast roundSqrt360_le n hn
  rw [round_eq, Int.floor_eq_iff, Int.cast_natCast]
  constructor
  · rcases Nat.eq_zero_or_pos (roundSqrt360 n) with h0 | hpos
    · rw [h0]
      simp only [Nat.cast_zero]
      norm_num at hpx1 ⊢
      linarith
    · have hlo : (4 * ((roundSqrt360 n : ℝ) * roundSqrt360 n) + 2 : ℝ)
          ≤ 720 * 720 * n + 4 * roundSqrt360 n := by
        exact_mod_cast roundSqrt360_lower n hpos
      have h1 : (1 : ℝ) ≤ roundSqrt360 n := by exact_mod_cast hpos
      by_contra hcon
      have hle : 360 * Real.sqrt (n : ℝ) ≤ (roundSqrt360 n : ℝ) - 1 / 2 + 1 / 10 ^ 7 := by
        linarith
      have hsq : (360 * Real.sqrt (n : ℝ)) * (360 * Real.sqrt (n : ℝ))
          ≤ ((roundSqrt360 n : ℝ) - 1 / 2 + 1 / 10 ^ 7)
            * ((roundSqrt360 n : ℝ) - 1 / 2 + 1 / 10 ^ 7) :=
        mul_self_le_mul_self (by positivity) hle
      have hexp : ((roundSqrt360 n : ℝ) - 1 / 2 + 1 / 10 ^ 7)
            * ((roundSqrt360 n : ℝ) - 1 / 2 + 1 / 10 ^ 7)
          = (roundSqrt360 n : ℝ) * roundSqrt360 n - (1 - 2 / 10 ^ 7) * roundSqrt360 n
            + (1 / 2 - 1 / 10 ^ 7) * (1 / 2 - 1 / 10 ^ 7) := by ring
      rw [hexp, hx2] at hsq
      norm_num at hsq
      linarith
  · by_contra hcon
    have hge : (roundSqrt360 n : ℝ) + 1 / 2 - 1 / 10 ^ 7 ≤ 360 * Real.sqrt (n : ℝ) := by
      linarith
    have hsq : ((roundSqrt360 n : ℝ) + 1 / 2 - 1 / 10 ^ 7)
          * ((roundSqrt360 n : ℝ) + 1 / 2 - 1 / 10 ^ 7)
        ≤ (360 * Real.sqrt (n : ℝ)) * (360 * Real.sqrt (n : ℝ)) :=
      mul_self_le_mul_self (by norm_num; linarith) hge
    have hexp : ((roundSqrt360 n : ℝ) + 1 / 2 - 1 / 10 ^ 7)
          * ((roundSqrt360 n : ℝ) + 1 / 2 - 1 / 10 ^ 7)
        = (roundSqrt360 n : ℝ) * roundSqrt360 n + (1 - 2 / 10 ^ 7) * roundSqrt360 n
          + (1 / 2 - 1 / 10 ^ 7) * (1 / 2 - 1 / 10 ^ 7) := by ring
    rw [hexp, hx2] at hsq
    norm_num at hsq
    linarith

/-- A sum of two squares of numbers up to 128 that exceeds `180^2` is `128^2 + 127^2` or
`128^2 + 128^2`. -/
theorem sum_sq_above (i q : Nat) (hi : i ≤ 128) (hq : q ≤ 128) (h : 32400 < i * i + q * q) :
    i * i + q * q = 32513 ∨ i * i + q * q = 32768 := by
  have hi2 : 127 ≤ i := by
    by_contra hc
    have h1 := Nat.mul_le_mul (show i ≤ 126 by omega) (show i ≤ 126 by omega)
    have h2 := Nat.mul_le_mul hq hq
    omega
  have hq2 : 127 ≤ q := by
    by_contra hc
    have h1 := Nat.mul_le_mul (show q ≤ 126 by omega) (show q ≤ 126 by omega)
    have h2 := Nat.mul_le_mul hi hi
    omega
  have hi3 : i = 127 ∨ i = 128 := by omega
  have hq3 : q = 127 ∨ q = 128 := by omega
  rcases hi3 with rfl | rfl <;> rcases hq3 with rfl | rfl <;> omega

/-- On the sums of squares that index the table the rounding is strictly increasing. -/
theorem roundSqrt360_strict_on_sums (i q i2 q2 : Nat) (hi : i ≤ 128) (hq : q ≤ 128)
    (hi2 : i2 ≤ 128) (hq2 : q2 ≤ 128) (h : i * i + q * q < i2 * i2 + q2 * q2) :
    roundSqrt360 (i * i + q * q) < roundSqrt360 (i2 * i2 + q2 * q2) := by
  rcases Nat.lt_or_ge 32400 (i2 * i2 + q2 * q2) with hbig | hsmall
  · rcases Nat.lt_or_ge 32400 (i * i + q * q) with hbig1 | hsmall1
    · rcases sum_sq_above i q hi hq hbig1 with e1 | e1 <;>
        rcases sum_sq_above i2 q2 hi2 hq2 hbig with e2 | e2
      · omega
      · rw [e1, e2, roundSqrt360_32513, roundSqrt360_32768]
        omega
      · omega
      · omega
    · have hle : roundSqrt360 (i * i + q * q) ≤ 64800 := by
        rw [← roundSqrt360_32400]
        exact roundSqrt360_mono hsmall1
      rcases sum_sq_above i2 q2 hi2 hq2 hbig with e2 | e2
      · rw [e2, roundSqrt360_32513]
        omega
      · rw [e2, roundSqrt360_32768]
        omega
  · exact roundSqrt360_strict _ _ h hsmall

/-! ## Claims on the lookup table -/

/-- Claim C11. The table that `main` builds holds at `i*129 + q`, for `i, q` in 0 .. 128,
an integer within 1/2 of `360 * sqrt (i^2 + q^2)`, that is the integer nearest to it;
`table[0][0]` is 0 and `table[3][4]` is 1800. -/
theorem maglut_nearest (block : List Nat) (hlen : block.length = 129 * 129) :
    ∃ t, buildMaglut block = .ok t
      ∧ (∀ i q : Nat, i ≤ 128 → q ≤ 128 →
          ∃ e : Nat, t[i * 129 + q]? = some e
            ∧ |(e : ℝ) - 360 * Real.sqrt ((i : ℝ) ^ 2 + (q : ℝ) ^ 2)| < 1 / 2)
      ∧ t[0 * 129 + 0]? = some 0 ∧ t[3 * 129 + 4]? = some 1800 := by
  obtain ⟨t, hrun, _, hval⟩ := buildMaglut_spec block hlen
  refine ⟨t, hrun, ?_, ?_, ?_⟩
  · intro i q hi hq
    refine ⟨_, hval i q hi hq, ?_⟩
    have h := roundSqrt360_near (i * i + q * q)
    have hc : ((i * i + q * q : Nat) : ℝ) = (i : ℝ) ^ 2 + (q : ℝ) ^ 2 := by
      push_cast
      ring
    rw [hc] at h
    exact h
  · rw [hval 0 0 (by omega) (by omega)]
    exact congrArg some roundSqrt360_zero
  · rw [hval 3 4 (by omega) (by omega)]
    exact congrArg some roundSqrt360_25

/-- Claim C11 on a block of zeros. -/
theorem maglut_nearest_witness :
    ∃ t, buildMaglut (List.replicate (129 * 129) 0) = .ok t
      ∧ (∀ i q : Nat, i ≤ 128 → q ≤ 128 →
          ∃ e : Nat, t[i * 129 + q]? = some e
            ∧ |(e : ℝ) - 360 * Real.sqrt ((i : ℝ) ^ 2 + (q : ℝ) ^ 2)| < 1 / 2)
      ∧ t[0 * 129 + 0]? = some 0 ∧ t[3 * 129 + 4]? = some 1800 :=
  maglut_nearest (List.replicate (129 * 129) 0) (List.length_replicate _ _)

/-- Claim C12. The table that `main` builds is monotone in `i^2 + q^2` and symmetric:
for `i, q, i2, q2` in 0 .. 128 with `i^2 + q^2 <= i2^2 + q2^2` the entry of `(i, q)` is
at most the entry of `(i2, q2)`, and the entries of `(i, q)` and `(q, i)` are equal. -/
theorem maglut_monotone_symmetric (block : List Nat) (hlen : block.length = 129 * 129) :
    ∃ t, buildMaglut block = .ok t
      ∧ (∀ i q i2 q2 : Nat, i ≤ 128 → q ≤ 128 → i2 ≤ 128 → q2 ≤ 128 →
          i * i + q * q ≤ i2 * i2 + q2 * q2 →
          ∃ a b, t[i * 129 + q]? = some a ∧ t[i2 * 129 + q2]? = some b ∧ a ≤ b)
      ∧ (∀ i q : Nat, i ≤ 128 → q ≤ 128 → t[i * 129 + q]? = t[q * 129 + i]?) := by
  obtain ⟨t, hrun, _, hval⟩ := buildMaglut_spec block hlen
  refine ⟨t, hrun, ?_, ?_⟩
  · intro i q i2 q2 hi hq hi2 hq2 h
    exact ⟨_, _, hval i q hi hq, hval i2 q2 hi2 hq2, roundSqrt360_mono h⟩
  · intro i q hi hq
    rw [hval i q hi hq, hval q i hq hi, Nat.add_comm]

/-- Claim C12 on a block of zeros. -/
theorem maglut_monotone_symmetric_witness :
    ∃ t, buildMaglut (List.replicate (129 * 129) 0) = .ok t
      ∧ (∀ i q i2 q2 : Nat, i ≤ 128 → q ≤ 128 → i2 ≤ 128 → q2 ≤ 128 →
          i * i + q * q ≤ i2 * i2 + q2 * q2 →
          ∃ a b, t[i * 129 + q]? = some a ∧ t[i2 * 129 + q2]? = some b ∧ a ≤ b)
      ∧ (∀ i q : Nat, i ≤ 128 → q ≤ 128 → t[i * 129 + q]? = t[q * 129 + i]?) :=
  maglut_monotone_symmetric (List.replicate (129 * 129) 0) (List.length_replicate _ _)

/-- Claim C13. Every value `round(360 * sqrt (i^2 + q^2))` with `i, q` in 0 .. 128 is at
most 65167, the value at `i = q = 128`, hence at most 65535: the conversion to
`uint16_t` (reduction modulo `2^16`) changes no value, and the table holds the values
themselves. -/
theorem maglut_fits_uint16 (block : List Nat) (hlen : block.length = 129 * 129) :
    ∃ t, buildMaglut block = .ok t
      ∧ (∀ i q : Nat, i ≤ 128 → q ≤ 128 →
          roundSqrt360 (i * i + q * q) ≤ 65167
            ∧ roundSqrt360 (i * i + q * q) ≤ 65535
            ∧ roundSqrt360 (i * i + q * q) % 2 ^ 16 = roundSqrt360 (i * i + q * q)
            ∧ t[i * 129 + q]? = some (roundSqrt360 (i * i + q * q)))
      ∧ t[128 * 129 + 128]? = some 65167 := by
  obtain ⟨t, hrun, _, hval⟩ := buildMaglut_spec block hlen
  refine ⟨t, hrun, ?_, ?_⟩
  · intro i q hi hq
    have hb := roundSqrt360_le _ (sum_sq_le i q hi hq)
    exact ⟨hb, by omega, Nat.mod_eq_of_lt (by omega), hval i q hi hq⟩
  · rw [hval 128 128 (by omega) (by omega)]
    exact congrArg some roundSqrt360_32768

/-- Claim C13 on a block of zeros. -/
theorem maglut_fits_uint16_witness :
    ∃ t, buildMaglut (List.replicate (129 * 129) 0) = .ok t
      ∧ (∀ i q : Nat, i ≤ 128 → q ≤ 128 →
          roundSqrt360 (i * i + q * q) ≤ 65167
            ∧ roundSqrt360 (i * i + q * q) ≤ 65535
            ∧ roundSqrt360 (i * i + q * q) % 2 ^ 16 = roundSqrt360 (i * i + q * q)
            ∧ t[i * 129 + q]? = some (roundSqrt360 (i * i + q * q)))
      ∧ t[128 * 129 + 128]? = some 65167 :=
  maglut_fits_uint16 (List.replicate (129 * 129) 0) (List.length_replicate _ _)

/-- Claim C14. In the table that `main` builds, pairs with different `i^2 + q^2` have
different entries: for `i, q, i2, q2` in 0 .. 128 with `i^2 + q^2 < i2^2 + q2^2` the entry
of `(i, q)` is strictly below the entry of `(i2, q2)`. -/
theorem maglut_strict (block : List Nat) (hlen : block.length = 129 * 129) :
    ∃ t, buildMaglut block = .ok t
      ∧ ∀ i q i2 q2 : Nat, i ≤ 128 → q ≤ 128 → i2 ≤ 128 → q2 ≤ 128 →
          i * i + q * q < i2 * i2 + q2 * q2 →
          ∃ a b, t[i * 129 + q]? = some a ∧ t[i2 * 129 + q2]? = some b ∧ a < b := by
  obtain ⟨t, hrun, _, hval⟩ := buildMaglut_spec block hlen
  refine ⟨t, hrun, ?_⟩
  intro i q i2 q2 hi hq hi2 hq2 h
  exact ⟨_, _, hval i q hi hq, hval i2 q2 hi2 hq2,
    roundSqrt360_strict_on_sums i q i2 q2 hi hq hi2 hq2 h⟩

/-- Claim C14 on a block of zeros. -/
theorem maglut_strict_witness :
    ∃ t, buildMaglut (List.replicate (129 * 129) 0) = .ok t
      ∧ ∀ i q i2 q2 : Nat, i ≤ 128 → q ≤ 128 → i2 ≤ 128 → q2 ≤ 128 →
          i * i + q * q < i2 * i2 + q2 * q2 →
          ∃ a b, t[i * 129 + q]? = some a ∧ t[i2 * 129 + q2]? = some b ∧ a < b :=
  maglut_strict (List.replicate (129 * 129) 0) (List.length_replicate _ _)

/-! ## More lemmas on the loop body -/

theorem stepSample_nonsilent (s : Detector) (v : Nat) (hs : s.state = 0) (hv : 800 < v)
    (hno : v < 30000 ∨ s.nsilence ≤ 225) :
    stepSample s v = { s with nsilences := max s.nsilences s.nsilence, nsilence := 0 } := by
  have h1 : ¬ v ≤ SILENCE_MAX := by simp only [SILENCE_MAX, SILENCE_MID, SILENCE_TOL]; omega
  have h2 : v ≥ SILENCE_MAX := by simp only [SILENCE_MAX, SILENCE_MID, SILENCE_TOL]; omega
  have h3 : ¬ (v ≥ ON_MIN ∧ s.nsilence > NSILENCE_MIN) := by
    simp only [ON_MIN, ON_MID, ON_TOL, NSILENCE_MIN]
    omega
  obtain ⟨st, a, b, c, d, e, f, g⟩ := s
  simp only at hs h3
  subst hs
  by_cases hab : a > b
  · have hm : max b a = a := max_eq_right (by omega)
    by_cases hon : v ≥ ON_MIN
    · have hr : ¬ a > NSILENCE_MIN := fun hc => h3 ⟨hon, hc⟩
      simp [stepSample, block0, block1, block2, h1, h2, hab, hon, hr, hm]
    · simp [stepSample, block0, block1, block2, h1, h2, hab, hon, hm]
  · have hm : max b a = b := max_eq_left (by omega)
    by_cases hon : v ≥ ON_MIN
    · have hr : ¬ a > NSILENCE_MIN := fun hc => h3 ⟨hon, hc⟩
      simp [stepSample, block0, block1, block2, h1, h2, hab, hon, hr, hm]
    · simp [stepSample, block0, block1, block2, h1, h2, hab, hon, hm]

theorem stepSample_pulse_enter (s : Detector) (v : Nat) (hs : s.state = 0) (hv : 30000 ≤ v)
    (hrun : 225 < s.nsilence) :
    stepSample s v
      = { s with state := 1, nsilences := max s.nsilences s.nsilence, nsilence := 0,
                 non := if 30000 < v then 1 else 0,
                 nons := if 30000 < v then s.nons + 1 else s.nons } := by
  have h1 : ¬ v ≤ SILENCE_MAX := by simp only [SILENCE_MAX, SILENCE_MID, SILENCE_TOL]; omega
  have h2 : v ≥ SILENCE_MAX := by simp only [SILENCE_MAX, SILENCE_MID, SILENCE_TOL]; omega
  have h3 : v ≥ ON_MIN := by simp only [ON_MIN, ON_MID, ON_TOL]; omega
  have h5 : s.nsilence > NSILENCE_MIN := by simp only [NSILENCE_MIN]; omega
  have h6 : ¬ (0 : Int) > NON_MIN := by simp only [NON_MIN]; omega
  obtain ⟨st, a, b, c, d, e, f, g⟩ := s
  simp only at hs h5
  subst hs
  by_cases hab : a > b
  · have hm : max b a = a := max_eq_right (by omega)
    by_cases hon : 30000 < v
    · have h4 : v > ON_MIN := by simp only [ON_MIN, ON_MID, ON_TOL]; omega
      simp [stepSample, block0, block1, block2, h1, h2, h3, h4, h5, hab, hm, hon]
    · have h4 : ¬ v > ON_MIN := by simp only [ON_MIN, ON_MID, ON_TOL]; omega
      simp [stepSample, block0, block1, block2, h1, h2, h3, h4, h5, h6, hab, hm, hon]
  · have hm : max b a = b := max_eq_left (by omega)
    by_cases hon : 30000 < v
    · have h4 : v > ON_MIN := by simp only [ON_MIN, ON_MID, ON_TOL]; omega
      simp [stepSample, block0, block1, block2, h1, h2, h3, h4, h5, hab, hm, hon]
    · have h4 : ¬ v > ON_MIN := by simp only [ON_MIN, ON_MID, ON_TOL]; omega
      simp [stepSample, block0, block1, block2, h1, h2, h3, h4, h5, h6, hab, hm, hon]

theorem stepSample_pulse_stall (s : Detector) (v : Nat) (hs : s.state = 1) (hv : v ≤ 30000)
    (hrun : s.non ≤ 30) : stepSample s v = s := by
  have h1 : ¬ v > ON_MIN := by simp only [ON_MIN, ON_MID, ON_TOL]; omega
  have h2 : ¬ s.non > NON_MIN := by simp only [NON_MIN]; omega
  simp [stepSample, block0, block1, block2, hs, h1, h2]

theorem stepSample_gap_enter (s : Detector) (v : Nat) (hs : s.state = 1) (hv : v ≤ 30000)
    (hrun : 30 < s.non) :
    stepSample s v
      = { s with state := 2, noff := if v < 3000 then 1 else 0,
                 noffs := if v < 3000 then s.noffs + 1 else s.noffs } := by
  have h1 : ¬ v > ON_MIN := by simp only [ON_MIN, ON_MID, ON_TOL]; omega
  have h2 : s.non > NON_MIN := by simp only [NON_MIN]; omega
  have h6 : ¬ (0 : Int) > NOFF_MIN := by simp only [NOFF_MIN]; omega
  by_cases hoff : v < 3000
  · have h3 : v < OFF_MAX := by simp only [OFF_MAX, OFF_MID, OFF_TOL]; omega
    simp [stepSample, block0, block1, block2, hs, h1, h2, h3, hoff]
  · have h3 : ¬ v < OFF_MAX := by simp only [OFF_MAX, OFF_MID, OFF_TOL]; omega
    simp [stepSample, block0, block1, block2, hs, h1, h2, h3, h6, hoff]

theorem stepSample_gap_stall (s : Detector) (v : Nat) (hs : s.state = 2) (hv : 3000 ≤ v)
    (hrun : s.noff ≤ 12) : stepSample s v = s := by
  have h1 : ¬ v < OFF_MAX := by simp only [OFF_MAX, OFF_MID, OFF_TOL]; omega
  have h2 : ¬ s.noff > NOFF_MIN := by simp only [NOFF_MIN]; omega
  simp [stepSample, block0, block1, block2, hs, h1, h2]

/-- One loop body spends one sample of the budget. -/
theorem stepSample_budget (s : Detector) (v : Nat) (j : Int) (h : ScanBudget s j) :
    ScanBudget (stepSample s v) (j + 1) := by
  unfold ScanBudget at h ⊢
  obtain ⟨hst, htot⟩ := h
  rcases hst with ⟨hs, h1, h2⟩ | ⟨hs, h1, h2⟩ | ⟨hs, h1, h2⟩
  · by_cases hv : v ≤ 800
    · rw [stepSample_silence s v hs hv]
      simp only
      omega
    · by_cases htr : 30000 ≤ v ∧ 225 < s.nsilence
      · rw [stepSample_pulse_enter s v hs htr.1 htr.2]
        by_cases hon : 30000 < v
        · refine ⟨Or.inr (Or.inl ⟨rfl, ?_, ?_⟩), ?_⟩ <;> simp only [hon, if_true] <;> omega
        · refine ⟨Or.inr (Or.inl ⟨rfl, ?_, ?_⟩), ?_⟩ <;> simp only [hon, if_false] <;> omega
      · rw [stepSample_nonsilent s v hs (by omega) (by omega)]
        simp only
        omega
  · by_cases hv : 30000 < v
    · rw [stepSample_pulse s v hs hv]
      simp only
      omega
    · by_cases hrun : 30 < s.non
      · rw [stepSample_gap_enter s v hs (by omega) hrun]
        by_cases hoff : v < 3000
        · refine ⟨Or.inr (Or.inr ⟨rfl, ?_, ?_⟩), ?_⟩ <;> simp only [hoff, if_true] <;> omega
        · refine ⟨Or.inr (Or.inr ⟨rfl, ?_, ?_⟩), ?_⟩ <;> simp only [hoff, if_false] <;> omega
      · rw [stepSample_pulse_stall s v hs (by omega) (by omega)]
        omega
  · by_cases hv : v < 3000
    · rw [stepSample_gap s v hs hv]
      simp only
      omega
    · by_cases hrun : 12 < s.noff
      · rw [stepSample_bit s v hs hrun (by omega)]
        refine ⟨Or.inl ⟨rfl, ?_, ?_⟩, ?_⟩ <;> simp only <;> omega
      · rw [stepSample_gap_stall s v hs (by omega) (by omega)]
        omega

/-- A run over `l` spends at most `l.length` samples of the budget. -/
theorem runSamples_budget (l : List Nat) :
    ∀ (s : Detector) (j : Int), ScanBudget s j → ScanBudget (runSamples s l) (j + l.length) := by
  induction l with
  | nil =>
    intro s j h
    simpa [runSamples] using h
  | cons v vs ih =>
    intro s j h
    have h2 := ih (stepSample s v) (j + 1) (stepSample_budget s v j h)
    rw [runSamples_cons, List.length_cons]
    have e : j + ((vs.length + 1 : Nat) : Int) = j + 1 + (vs.length : Int) := by
      push_cast
      ring
    rw [e]
    exact h2

theorem scanBudget_init : ScanBudget Detector.init 0 := by
  unfold ScanBudget Detector.init
  simp

/-! ## More claims on the frame detector -/

/-- Claim C18. For `a >= 226` samples `lo <= 800`, then `b >= 31` samples `hi > 30000`,
then `c >= 13` samples `g < 3000`, then `d >= 241` samples `pad >= 3000` (fewer than
`2^31` samples in all), `detectFrame` reports `bit0 = 1`, `nsilences = a`, `nons = b`
and `noffs = c`. -/
theorem detectFrame_positive_detection (a b c d lo hi g pad : Nat)
    (ha : 226 ≤ a) (hb : 31 ≤ b) (hc : 13 ≤ c) (hd : 241 ≤ d)
    (hlo : lo ≤ 800) (hhi : 30000 < hi) (hg : g < 3000) (hpad : 3000 ≤ pad)
    (hlen : a + b + c + d < 2 ^ 31) :
    ∃ r, detectFrame
          (List.replicate a lo ++ List.replicate b hi ++ List.replicate c g
            ++ List.replicate d pad)
          (List.replicate a lo ++ List.replicate b hi ++ List.replicate c g
            ++ List.replicate d pad).length = .ok r
      ∧ r.bit0 = 1 ∧ r.nsilences = a ∧ r.nons = b ∧ r.noffs = c := by
  have hL : (List.replicate a lo ++ List.replicate b hi ++ List.replicate c g
      ++ List.replicate d pad).length = a + b + c + d := by
    simp only [List.length_append, List.length_replicate]
  obtain ⟨v0, _, hr⟩ := detectFrame_eq
    (List.replicate a lo ++ List.replicate b hi ++ List.replicate c g
      ++ List.replicate d pad) (by omega) (by omega)
  have htake := take_append_tail
    (List.replicate a lo ++ List.replicate b hi ++ List.replicate c g)
    (List.replicate d pad) (by rw [List.length_replicate]; omega)
  have hrun := runSamples_pattern (List.replicate a lo) (List.replicate b hi)
    (List.replicate c g) ((List.replicate d pad).take ((List.replicate d pad).length - 240))
    (forall_mem_replicate _ _ _ hlo) (by rw [List.length_replicate]; omega)
    (forall_mem_replicate _ _ _ hhi) (by rw [List.length_replicate]; omega)
    (forall_mem_replicate _ _ _ hg) (by rw [List.length_replicate]; omega)
    (fun v hv => by rw [List.eq_of_mem_replicate (List.mem_of_mem_take hv)]; exact hpad)
    (by rw [List.length_take, List.length_replicate]; omega)
  rw [htake, hrun] at hr
  refine ⟨_, hr, rfl, ?_, ?_, ?_⟩
  · simp only [List.length_replicate]
  · simp only [List.length_replicate]
  · simp only [List.length_replicate]

/-- Claim C18 on 226 samples 0, 31 samples 40000, 13 samples 0 and 241 samples 5000. -/
theorem detectFrame_positive_detection_witness :
    ∃ r, detectFrame
          (List.replicate 226 0 ++ List.replicate 31 40000 ++ List.replicate 13 0
            ++ List.replicate 241 5000)
          (List.replicate 226 0 ++ List.replicate 31 40000 ++ List.replicate 13 0
            ++ List.replicate 241 5000).length = .ok r
      ∧ r.bit0 = 1 ∧ r.nsilences = (226 : Nat) ∧ r.nons = (31 : Nat)
      ∧ r.noffs = (13 : Nat) :=
  detectFrame_positive_detection 226 31 13 241 0 40000 0 5000 (by omega) (by omega)
    (by omega) (by omega) (by omega) (by omega) (by omega) (by omega) (by omega)

/-- Claim C19. On a vector of at least 240 samples (and few enough for the `int` index,
as every vector of `data_len/2` samples is) each bit event costs 271 scanned samples
(226 of silence, 31 of pulse, 13 of gap and the one that ends the gap) and each sample
counts in at most one of `nsilence`, `nons`, `noffs`: `271 * bit0` and `nons + noffs`
are both at most the number `mlen - 240` of scanned samples. -/
theorem detectFrame_bit_budget (m : List Nat) (h240 : 240 ≤ m.length)
    (hlt : m.length < 2 ^ 31 + 240) :
    ∃ r, detectFrame m m.length = .ok r
      ∧ 271 * r.bit0 ≤ ((m.length - 240 : Nat) : Int)
      ∧ r.nons + r.noffs ≤ ((m.length - 240 : Nat) : Int) := by
  obtain ⟨v0, _, hr⟩ := detectFrame_eq m h240 hlt
  have hb := runSamples_budget (m.take (m.length - 240)) Detector.init 0 scanBudget_init
  rw [List.length_take, Nat.min_eq_left (Nat.sub_le _ _), Int.zero_add] at hb
  unfold ScanBudget at hb
  refine ⟨_, hr, ?_, ?_⟩
  · simp only
    omega
  · simp only
    omega

/-- Claim C19 on 300 samples of value 1000. -/
theorem detectFrame_bit_budget_witness :
    ∃ r, detectFrame (List.replicate 300 1000) (List.replicate 300 1000).length = .ok r
      ∧ 271 * r.bit0 ≤ (((List.replicate 300 1000).length - 240 : Nat) : Int)
      ∧ r.nons + r.noffs ≤ (((List.replicate 300 1000).length - 240 : Nat) : Int) :=
  detectFrame_bit_budget (List.replicate 300 1000) (by rw [List.length_replicate]; omega)
    (by rw [List.length_replicate]; omega)

/-! ## Lemmas on silence runs -/

theorem endedSilenceRun_nil (i len : Nat) : ¬ EndedSilenceRun [] i len := by
  rintro ⟨_, y, hy, _⟩
  simp at hy

theorem endedSilenceRun_cons_succ (v : Nat) (vs : List Nat) (i len : Nat) :
    EndedSilenceRun (v :: vs) (i + 1) len ↔ EndedSilenceRun vs i len := by
  have e : ∀ t, i + 1 + t = (i + t) + 1 := fun t => by omega
  unfold EndedSilenceRun
  simp only [e, List.getElem?_cons_succ]

theorem endedSilenceRun_cons_zero_zero (v : Nat) (vs : List Nat) :
    EndedSilenceRun (v :: vs) 0 0 ↔ 800 < v := by
  unfold EndedSilenceRun
  constructor
  · rintro ⟨_, y, hy, h⟩
    simp only [Nat.add_zero, List.getElem?_cons_zero, Option.some.injEq] at hy
    omega
  · intro h
    refine ⟨fun t ht => by omega, v, ?_, h⟩
    simp

theorem endedSilenceRun_cons_zero_succ (v : Nat) (vs : List Nat) (len : Nat) :
    EndedSilenceRun (v :: vs) 0 (len + 1) ↔ v ≤ 800 ∧ EndedSilenceRun vs 0 len := by
  unfold EndedSilenceRun
  constructor
  · rintro ⟨hall, y, hy, h⟩
    obtain ⟨x, hx, hx2⟩ := hall 0 (by omega)
    simp only [Nat.add_zero, List.getElem?_cons_zero, Option.some.injEq] at hx
    refine ⟨by omega, ?_, y, ?_, h⟩
    · intro t ht
      obtain ⟨x, hx, hx2⟩ := hall (t + 1) (by omega)
      rw [show 0 + (t + 1) = (0 + t) + 1 by omega, List.getElem?_cons_succ] at hx
      exact ⟨x, hx, hx2⟩
    · rw [show 0 + (len + 1) = (0 + len) + 1 by omega, List.getElem?_cons_succ] at hy
      exact hy
  · rintro ⟨hv, hall, y, hy, h⟩
    refine ⟨?_, y, ?_, h⟩
    · intro t ht
      rcases Nat.eq_zero_or_pos t with rfl | hpos
      · exact ⟨v, by simp, hv⟩
      · obtain ⟨x, hx, hx2⟩ := hall (t - 1) (by omega)
        refine ⟨x, ?_, hx2⟩
        rw [show 0 + t = (0 + (t - 1)) + 1 by omega, List.getElem?_cons_succ]
        exact hx
    · rw [show 0 + (len + 1) = (0 + len) + 1 by omega, List.getElem?_cons_succ]
      exact hy

/-- While no sample reaches the on floor the detector stays in state 0, and `nsilences`
ends as the longest silence run that a non-silent sample ended: the recorded maximum `b`,
the run in progress `c` extended by the silence at the start of `l`, or a run inside
`l`. -/
theorem runSamples_silence_max (l : List Nat) :
    ∀ (s : Detector) (c b : Nat), s.state = 0 → s.nsilence = c → s.nsilences = b →
      (∀ v ∈ l, v < 30000) →
      ∃ R : Nat, (runSamples s l).nsilences = R ∧ b ≤ R
        ∧ (∀ i len, EndedSilenceRun l i len → len ≤ R ∧ (i = 0 → c + len ≤ R))
        ∧ (R = b ∨ (∃ len, EndedSilenceRun l 0 len ∧ R = c + len)
            ∨ ∃ i len, EndedSilenceRun l i len ∧ R = len) := by
  induction l with
  | nil =>
    intro s c b _ _ hb _
    refine ⟨b, hb, Nat.le_refl b, ?_, Or.inl rfl⟩
    intro i len h
    exact absurd h (endedSilenceRun_nil i len)
  | cons v vs ih =>
    intro s c b hs hc hb hall
    have hrest : ∀ w ∈ vs, w < 30000 := fun w hw => hall w (List.mem_cons_of_mem v hw)
    have hv30 : v < 30000 := hall v (List.mem_cons_self v vs)
    rw [runSamples_cons]
    by_cases hv : v ≤ 800
    · rw [stepSample_silence s v hs hv]
      obtain ⟨R, hR, hbR, hup, hach⟩ :=
        ih { s with nsilence := s.nsilence + 1 } (c + 1) b hs
          (by simp only [hc]; push_cast; rfl) hb hrest
      refine ⟨R, hR, hbR, ?_, ?_⟩
      · intro i len h
        rcases i with _ | i
        · rcases len with _ | len
          · have := (endedSilenceRun_cons_zero_zero v vs).1 h
            omega
          · have h2 := (hup 0 len ((endedSilenceRun_cons_zero_succ v vs len).1 h).2).2 rfl
            exact ⟨by omega, fun _ => by omega⟩
        · exact ⟨(hup i len ((endedSilenceRun_cons_succ v vs i len).1 h)).1,
            fun h0 => by omega⟩
      · rcases hach with h | ⟨len, h, hlen⟩ | ⟨i, len, h, hlen⟩
        · exact Or.inl h
        · exact Or.inr (Or.inl ⟨len + 1,
            (endedSilenceRun_cons_zero_succ v vs len).2 ⟨hv, h⟩, by omega⟩)
        · exact Or.inr (Or.inr ⟨i + 1, len,
            (endedSilenceRun_cons_succ v vs i len).2 h, hlen⟩)
    · rw [stepSample_nonsilent s v hs (by omega) (Or.inl hv30)]
      obtain ⟨R, hR, hbR, hup, hach⟩ :=
        ih { s with nsilences := max s.nsilences s.nsilence, nsilence := 0 } 0 (max b c) hs
          rfl (by simp only [hc, hb]; push_cast; rfl) hrest
      have hbR2 : b ≤ R := Nat.le_trans (Nat.le_max_left b c) hbR
      have hcR : c ≤ R := Nat.le_trans (Nat.le_max_right b c) hbR
      refine ⟨R, hR, hbR2, ?_, ?_⟩
      · intro i len h
        rcases i with _ | i
        · rcases len with _ | len
          · exact ⟨Nat.zero_le R, fun _ => by omega⟩
          · have := ((endedSilenceRun_cons_zero_succ v vs len).1 h).1
            omega
        · exact ⟨(hup i len ((endedSilenceRun_cons_succ v vs i len).1 h)).1,
            fun h0 => by omega⟩
      · rcases hach with h | ⟨len, h, hlen⟩ | ⟨i, len, h, hlen⟩
        · rcases Nat.le_total b c with hbc | hbc
          · refine Or.inr (Or.inl ⟨0,
              (endedSilenceRun_cons_zero_zero v vs).2 (by omega), ?_⟩)
            rw [h, Nat.max_eq_right hbc]
            rfl
          · exact Or.inl (by rw [h, Nat.max_eq_left hbc])
        · exact Or.inr (Or.inr ⟨1, len,
            (endedSilenceRun_cons_succ v vs 0 len).2 h, by omega⟩)
        · exact Or.inr (Or.inr ⟨i + 1, len,
            (endedSilenceRun_cons_succ v vs i len).2 h, hlen⟩)

/-- Block 1 leaves the silence counters alone. -/
theorem block1_silence (s : Detector) (v : Nat) :
    (block1 s v).nsilence = s.nsilence ∧ (block1 s v).nsilences = s.nsilences := by
  unfold block1
  split_ifs <;> exact ⟨rfl, rfl⟩

/-- Block 2 leaves `nsilences` alone, and either leaves `state` and `nsilence` alone or
ends in state 0 with `nsilence = 0`. -/
theorem block2_silence (s : Detector) (v : Nat) :
    (block2 s v).nsilences = s.nsilences
      ∧ (((block2 s v).state = 0 ∧ (block2 s v).nsilence = 0)
        ∨ ((block2 s v).state = s.state ∧ (block2 s v).nsilence = s.nsilence)) := by
  unfold block2
  split_ifs
  · exact ⟨rfl, Or.inr ⟨rfl, rfl⟩⟩
  · exact ⟨rfl, Or.inl ⟨rfl, rfl⟩⟩
  · exact ⟨rfl, Or.inr ⟨rfl, rfl⟩⟩
  · exact ⟨rfl, Or.inr ⟨rfl, rfl⟩⟩

theorem block1_state_ne_zero (s : Detector) (v : Nat) (h : s.state ≠ 0) :
    (block1 s v).state ≠ 0 := by
  rcases block1_state s v with e | ⟨_, e, _⟩
  · rw [e]
    exact h
  · rw [e]
    decide

/-- Outside state 0 the loop body does not count silence: `nsilences` is unchanged, and
`nsilence` is unchanged too unless the body ends in state 0, where it is 0. -/
theorem stepSample_silence_other (s : Detector) (v : Nat) (hs : s.state ≠ 0) :
    (stepSample s v).nsilences = s.nsilences
      ∧ (((stepSample s v).state = 0 ∧ (stepSample s v).nsilence = 0)
        ∨ ((stepSample s v).state ≠ 0 ∧ (stepSample s v).nsilence = s.nsilence)) := by
  have h0 : block0 s v = s := by
    unfold block0
    rw [if_neg hs]
  unfold stepSample
  rw [h0]
  obtain ⟨e1, e2⟩ := block1_silence s v
  have hne := block1_state_ne_zero s v hs
  obtain ⟨f1, f2⟩ := block2_silence (block1 s v) v
  refine ⟨by rw [f1, e2], ?_⟩
  rcases f2 with ⟨a, b⟩ | ⟨a, b⟩
  · exact Or.inl ⟨a, b⟩
  · exact Or.inr ⟨by rw [a]; exact hne, by rw [b, e1]⟩

/-- In state 0 a non-silent sample records the silence run and ends it. -/
theorem stepSample_silence_ended (s : Detector) (v : Nat) (hs : s.state = 0)
    (hv : 800 < v) :
    (stepSample s v).nsilences = max s.nsilences s.nsilence
      ∧ (stepSample s v).nsilence = 0 := by
  by_cases h : v < 30000 ∨ s.nsilence ≤ 225
  · rw [stepSample_nonsilent s v hs hv h]
    exact ⟨rfl, rfl⟩
  · rw [stepSample_pulse_enter s v hs (by omega) (by omega)]
    exact ⟨rfl, rfl⟩

/-- From any values of the locals, `nsilences` ends as the recorded maximum `b` or as at
most the length of a silence run that a non-silent sample ended (in state 0, the run at
the start of `l` counts with the run in progress `c`). -/
theorem runSamples_silence_upper (l : List Nat) :
    ∀ (s : Detector) (c b : Nat), s.nsilence = c → s.nsilences = b →
      ∃ R : Nat, (runSamples s l).nsilences = R ∧ b ≤ R
        ∧ (R = b ∨ (s.state = 0 ∧ ∃ len, EndedSilenceRun l 0 len ∧ R ≤ c + len)
            ∨ ∃ i len, EndedSilenceRun l i len ∧ R ≤ len) := by
  induction l with
  | nil =>
    intro s c b _ hb
    exact ⟨b, hb, Nat.le_refl b, Or.inl rfl⟩
  | cons v vs ih =>
    intro s c b hc hb
    rw [runSamples_cons]
    by_cases hs : s.state = 0
    · by_cases hv : v ≤ 800
      · rw [stepSample_silence s v hs hv]
        obtain ⟨R, hR, hbR, hach⟩ :=
          ih { s with nsilence := s.nsilence + 1 } (c + 1) b
            (by simp only [hc]; push_cast; rfl) hb
        refine ⟨R, hR, hbR, ?_⟩
        rcases hach with h | ⟨_, len, h, hlen⟩ | ⟨i, len, h, hlen⟩
        · exact Or.inl h
        · exact Or.inr (Or.inl ⟨hs, len + 1,
            (endedSilenceRun_cons_zero_succ v vs len).2 ⟨hv, h⟩, by omega⟩)
        · exact Or.inr (Or.inr ⟨i + 1, len,
            (endedSilenceRun_cons_succ v vs i len).2 h, hlen⟩)
      · obtain ⟨e1, e2⟩ := stepSample_silence_ended s v hs (by omega)
        obtain ⟨R, hR, hbR, hach⟩ :=
          ih (stepSample s v) 0 (max b c) (by rw [e2]; rfl)
            (by rw [e1, hc, hb]; push_cast; rfl)
        have hbR2 : b ≤ R := Nat.le_trans (Nat.le_max_left b c) hbR
        refine ⟨R, hR, hbR2, ?_⟩
        rcases hach with h | ⟨_, len, h, hlen⟩ | ⟨i, len, h, hlen⟩
        · rcases Nat.le_total b c with hbc | hbc
          · refine Or.inr (Or.inl ⟨hs, 0,
              (endedSilenceRun_cons_zero_zero v vs).2 (by omega), ?_⟩)
            rw [h, Nat.max_eq_right hbc]
            exact Nat.le_refl _
          · exact Or.inl (by rw [h, Nat.max_eq_left hbc])
        · exact Or.inr (Or.inr ⟨1, len,
            (endedSilenceRun_cons_succ v vs 0 len).2 h, by omega⟩)
        · exact Or.inr (Or.inr ⟨i + 1, len,
            (endedSilenceRun_cons_succ v vs i len).2 h, hlen⟩)
    · obtain ⟨e1, e2⟩ := stepSample_silence_other s v hs
      rcases e2 with ⟨a, z⟩ | ⟨a, z⟩
      · obtain ⟨R, hR, hbR, hach⟩ :=
          ih (stepSample s v) 0 b (by rw [z]; rfl) (by rw [e1, hb])
        refine ⟨R, hR, hbR, ?_⟩
        rcases hach with h | ⟨_, len, h, hlen⟩ | ⟨i, len, h, hlen⟩
        · exact Or.inl h
        · exact Or.inr (Or.inr ⟨1, len,
            (endedSilenceRun_cons_succ v vs 0 len).2 h, by omega⟩)
        · exact Or.inr (Or.inr ⟨i + 1, len,
            (endedSilenceRun_cons_succ v vs i len).2 h, hlen⟩)
      · obtain ⟨R, hR, hbR, hach⟩ :=
          ih (stepSample s v) c b (by rw [z, hc]) (by rw [e1, hb])
        refine ⟨R, hR, hbR, ?_⟩
        rcases hach with h | ⟨h0, _⟩ | ⟨i, len, h, hlen⟩
        · exact Or.inl h
        · exact absurd h0 a
        · exact Or.inr (Or.inr ⟨i + 1, len,
            (endedSilenceRun_cons_succ v vs i len).2 h, hlen⟩)

/-! ## Claims on the reported silence run -/

/-- Claim C15, as stated, fails. On 241 silent samples `detectFrame` scans index 0 only
and reports `nsilences = 0`, while the scanned indices hold a silence run of length 1:
a run counts only once a non-silent sample has ended it inside the scanned indices. -/
theorem detectFrame_nsilences_counterexample :
    detectFrame (List.replicate 241 0) 241
        = .ok { bit0 := 0, nsilences := 0, nons := 0, noffs := 0, m0 := 0 }
      ∧ longestSilenceRun ((List.replicate 241 0).take (241 - 240)) = 1 := by
  constructor
  · have hl := detectLoop_of_take (List.replicate 241 0) 241 [0]
      (List.length_replicate _ _) (by omega) (by omega)
      (by rw [List.take_replicate]; rfl)
    have h0 : (List.replicate 241 0)[0]? = some 0 := by
      rw [List.getElem?_replicate]
      rfl
    unfold detectFrame
    rw [hl, h0]
    rfl
  · rw [List.take_replicate]
    rfl

/-- Claim C15, amended. On a vector of 240 to `2^31 + 239` samples the reported
`nsilences` is 0 or at most the length of a silence run (samples at or below 800) that a
non-silent sample ends inside the scanned indices `0 .. mlen-241`; and when no scanned
sample reaches the on floor (30000), so that the detector stays in state 0, it is the
length of the longest such run (0 when there is none). -/
theorem detectFrame_nsilences_ended_runs (m : List Nat) (h240 : 240 ≤ m.length)
    (hlt : m.length < 2 ^ 31 + 240) :
    ∃ r, ∃ k : Nat, detectFrame m m.length = .ok r ∧ r.nsilences = k
      ∧ (k = 0 ∨ ∃ i len, EndedSilenceRun (m.take (m.length - 240)) i len ∧ k ≤ len)
      ∧ ((∀ v ∈ m.take (m.length - 240), v < 30000) →
          (∀ i len, EndedSilenceRun (m.take (m.length - 240)) i len → len ≤ k)
            ∧ (k = 0 ∨ ∃ i, EndedSilenceRun (m.take (m.length - 240)) i k)) := by
  obtain ⟨v0, _, hr⟩ := detectFrame_eq m h240 hlt
  obtain ⟨R, hR, _, hach⟩ :=
    runSamples_silence_upper (m.take (m.length - 240)) Detector.init 0 0 rfl rfl
  refine ⟨_, R, hr, ?_, ?_, ?_⟩
  · simp only
    exact hR
  · rcases hach with h | ⟨_, len, h, hlen⟩ | ⟨i, len, h, hlen⟩
    · exact Or.inl h
    · exact Or.inr ⟨0, len, h, by omega⟩
    · exact Or.inr ⟨i, len, h, hlen⟩
  · intro hlow
    obtain ⟨R2, hR2, _, hup, hach2⟩ :=
      runSamples_silence_max (m.take (m.length - 240)) Detector.init 0 0 rfl rfl rfl hlow
    have hRR : R2 = R := by
      have h : (R2 : Int) = (R : Int) := by rw [← hR2, ← hR]
      exact Int.ofNat.inj h
    subst hRR
    refine ⟨fun i len h => (hup i len h).1, ?_⟩
    rcases hach2 with h | ⟨len, h, hlen⟩ | ⟨i, len, h, hlen⟩
    · exact Or.inl h
    · refine Or.inr ⟨0, ?_⟩
      rw [hlen, Nat.zero_add]
      exact h
    · refine Or.inr ⟨i, ?_⟩
      rw [hlen]
      exact h

/-- Claim C15, amended, on 5 silent samples followed by 300 samples of value 1000. -/
theorem detectFrame_nsilences_ended_runs_witness :
    ∃ r, ∃ k : Nat,
      detectFrame (List.replicate 5 0 ++ List.replicate 300 1000)
          (List.replicate 5 0 ++ List.replicate 300 1000).length = .ok r
      ∧ r.nsilences = k
      ∧ (k = 0 ∨ ∃ i len, EndedSilenceRun
          ((List.replicate 5 0 ++ List.replicate 300 1000).take
            ((List.replicate 5 0 ++ List.replicate 300 1000).length - 240)) i len ∧ k ≤ len)
      ∧ ((∀ v ∈ (List.replicate 5 0 ++ List.replicate 300 1000).take
            ((List.replicate 5 0 ++ List.replicate 300 1000).length - 240), v < 30000) →
          (∀ i len, EndedSilenceRun
            ((List.replicate 5 0 ++ List.replicate 300 1000).take
              ((List.replicate 5 0 ++ List.replicate 300 1000).length - 240)) i len →
              len ≤ k)
            ∧ (k = 0 ∨ ∃ i, EndedSilenceRun
              ((List.replicate 5 0 ++ List.replicate 300 1000).take
                ((List.replicate 5 0 ++ List.replicate 300 1000).length - 240)) i k)) :=
  detectFrame_nsilences_ended_runs (List.replicate 5 0 ++ List.replicate 300 1000)
    (by rw [List.length_append, List.length_replicate, List.length_replicate]; omega)
    (by rw [List.length_append, List.length_replicate, List.length_replicate]; omega)

/-! ## Claims on the carry-over region and on the table index -/

/-- Claim C17 fails on the configured buffer. With `mlen = (MODES_DATA_LEN +
(MODES_FULL_LEN-1)*4)/2 = 131310` magnitude samples the scan reads the indices below
131070, and `rtlsdrCallback` carries the bytes from offset `MODES_DATA_LEN` on, the byte
pairs of the samples from 131072 on: the samples 131070 and 131071 (bytes 262140 to
262143) are the samples that are neither scanned nor carried over. -/
theorem detectFrame_carry_over_gap (m buf : List Nat) (len : Nat) (ctx : ctx_t)
    (hm : m.length = (MODES_DATA_LEN + (MODES_FULL_LEN - 1) * 4) / 2)
    (hcap : ctx.data.length = MODES_DATA_LEN + (MODES_FULL_LEN - 1) * 4)
    (hbuf : min len MODES_DATA_LEN ≤ buf.length) :
    ∃ s reads, detectLoop m m.length = .ok (s, reads)
      ∧ (∀ j, j < m.length →
          ((j ∉ reads ∧ 2 * j + 1 < MODES_DATA_LEN) ↔ (j = 131070 ∨ j = 131071)))
      ∧ ∃ ctx1, rtlsdrCallback buf len ctx = .ok ctx1
          ∧ ∀ k, k < (MODES_FULL_LEN - 1) * 4 →
              ctx1.data[k]? = ctx.data[(MODES_DATA_LEN + k)]? := by
  have hm2 : m.length = 131310 := hm
  refine ⟨_, _, detectLoop_eq m (by omega) (by omega), ?_, _,
    rtlsdrCallback_eq buf len ctx hcap hbuf, ?_⟩
  · intro j hj
    rw [List.mem_range, MODES_DATA_LEN_eq]
    omega
  · intro k hk
    have hdl : (ctx.data.drop MODES_DATA_LEN).length = (MODES_FULL_LEN - 1) * 4 := by
      rw [List.length_drop]
      omega
    simp only
    rw [List.append_assoc, List.getElem?_append_left (by rw [hdl]; exact hk),
      List.getElem?_drop]

/-- Claim C17 on a magnitude vector of 131310 zeros and the buffer that `main` sets up,
with an empty chunk. -/
theorem detectFrame_carry_over_gap_witness :
    ∃ s reads, detectLoop (List.replicate 131310 0) (List.replicate 131310 0).length
        = .ok (s, reads)
      ∧ (∀ j, j < (List.replicate 131310 0).length →
          ((j ∉ reads ∧ 2 * j + 1 < MODES_DATA_LEN) ↔ (j = 131070 ∨ j = 131071)))
      ∧ ∃ ctx1, rtlsdrCallback [] 0 (initCtx [] []) = .ok ctx1
          ∧ ∀ k, k < (MODES_FULL_LEN - 1) * 4 →
              ctx1.data[k]? = (initCtx [] []).data[(MODES_DATA_LEN + k)]? :=
  detectFrame_carry_over_gap (List.replicate 131310 0) [] 0 (initCtx [] [])
    (List.length_replicate _ _) (initCtx_data_length [] []) (Nat.zero_le _)

/-- Claim C20. For bytes `s0`, `s1` (below 256) the values `i = |s0 - 127|` and
`q = |s1 - 127|` are at most 128, with 128 reached only for the byte 255; the index
`i * 129 + q` is below `129 * 129`, and on a table of `129 * 129` entries the loop body
of `computeMagnitudeVector` reads that entry without a fault. -/
theorem maglut_index_in_bounds (s0 s1 : Nat) (lut m : List Nat) (h0 : s0 < 256)
    (h1 : s1 < 256) (hlut : lut.length = 129 * 129) (hm : 0 < m.length) :
    ((s0 : Int) - 127).natAbs ≤ 128 ∧ ((s1 : Int) - 127).natAbs ≤ 128
      ∧ (((s0 : Int) - 127).natAbs = 128 ↔ s0 = 255)
      ∧ (((s1 : Int) - 127).natAbs = 128 ↔ s1 = 255)
      ∧ maglutIndex s0 s1 < 129 * 129
      ∧ ∃ v, lut[maglutIndex s0 s1]? = some v
          ∧ magLoop [s0, s1] lut 1 0 m = .ok (m.set 0 v) := by
  have hidx : maglutIndex s0 s1 < lut.length := by
    rw [hlut]
    exact maglutIndex_lt s0 s1 h0 h1
  refine ⟨by omega, by omega, by omega, by omega, maglutIndex_lt s0 s1 h0 h1,
    lut[maglutIndex s0 s1], List.getElem?_eq_getElem hidx, ?_⟩
  rw [magLoop]
  simp only [List.getElem?_cons_zero, List.getElem?_cons_succ, Nat.zero_add,
    index_eq_maglutIndex, List.getElem?_eq_getElem hidx, Nat.zero_div]
  rw [if_neg (by omega), if_neg (by omega)]
  rfl

/-- Claim C20 on the byte pair `(255, 0)`, the table of `sampleCtx` and a one-entry
magnitude block. -/
theorem maglut_index_in_bounds_witness :
    (((255 : Nat) : Int) - 127).natAbs ≤ 128 ∧ (((0 : Nat) : Int) - 127).natAbs ≤ 128
      ∧ ((((255 : Nat) : Int) - 127).natAbs = 128 ↔ 255 = 255)
      ∧ ((((0 : Nat) : Int) - 127).natAbs = 128 ↔ 0 = 255)
      ∧ maglutIndex 255 0 < 129 * 129
      ∧ ∃ v, sampleCtx.maglut[maglutIndex 255 0]? = some v
          ∧ magLoop [255, 0] sampleCtx.maglut 1 0 [7] = .ok ([7].set 0 v) :=
  maglut_index_in_bounds 255 0 sampleCtx.maglut [7] (by omega) (by omega)
    (by simp only [sampleCtx, List.length_range]) (by decide)

/-! ## Lemmas on the two threads -/

theorem lockInv_init : LockInv Coordinator.init := by
  refine ⟨by decide, by decide, Or.inl rfl, rfl, ?_⟩
  intro e he
  simp [Coordinator.init] at he

theorem stepReader_lockInv (s : Coordinator) (h : LockInv s) : LockInv (stepReader s) := by
  obtain ⟨rpc, mpc, holder, dr, ex, mis, w⟩ := s
  obtain ⟨h1, h2, h3, h4, h5⟩ := h
  simp only at h1 h2 h3 h4 h5
  subst h4
  cases rpc
  case idle =>
    exact ⟨by simpa [stepReader, readerHolds] using h1, h2, h3, rfl, h5⟩
  case lock =>
    by_cases hh : holder = none
    · subst hh
      refine ⟨by simp [stepReader, readerHolds], ?_, h3, rfl, h5⟩
      have hm : mainHolds mpc = false := by
        cases hmh : mainHolds mpc
        · rfl
        · exact absurd (h2.1 hmh) (by simp)
      simp [stepReader, hm]
    · have : stepReader ⟨.lock, mpc, holder, dr, ex, false, w⟩
          = ⟨.lock, mpc, holder, dr, ex, false, w⟩ := by
        simp [stepReader, hh]
      rw [this]
      exact ⟨h1, h2, h3, rfl, h5⟩
  case move =>
    have hr : holder = some .reader := h1.1 rfl
    subst hr
    refine ⟨by simp [stepReader, readerHolds], h2, h3, rfl, ?_⟩
    intro e he
    simp only [stepReader, List.mem_append, List.mem_singleton] at he
    rcases he with he | he
    · exact h5 e he
    · subst he
      rfl
  case copy =>
    have hr : holder = some .reader := h1.1 rfl
    subst hr
    refine ⟨by simp [stepReader, readerHolds], h2, h3, rfl, ?_⟩
    intro e he
    simp only [stepReader, List.mem_append, List.mem_singleton] at he
    rcases he with he | he
    · exact h5 e he
    · subst he
      rfl
  case setReady =>
    have hr : holder = some .reader := h1.1 rfl
    subst hr
    refine ⟨by simp [stepReader, readerHolds], h2, Or.inr rfl, rfl, ?_⟩
    intro e he
    simp only [stepReader, List.mem_append, List.mem_singleton] at he
    rcases he with he | he
    · exact h5 e he
    · subst he
      rfl
  case signal =>
    exact ⟨by simpa [stepReader, readerHolds] using h1, h2, h3, rfl, h5⟩
  case unlock =>
    have hr : holder = some .reader := h1.1 rfl
    subst hr
    have hm : mainHolds mpc = false := by
      cases hmh : mainHolds mpc
      · rfl
      · exact absurd (h2.1 hmh) (by simp)
    exact ⟨by simp [stepReader, readerHolds], by simp [stepReader, hm], h3,
      by simp [stepReader], h5⟩

theorem stepMain_lockInv (s : Coordinator) (h : LockInv s) : LockInv (stepMain s) := by
  obtain ⟨rpc, mpc, holder, dr, ex, mis, w⟩ := s
  obtain ⟨h1, h2, h3, h4, h5⟩ := h
  simp only at h1 h2 h3 h4 h5
  subst h4
  have hfree : holder = none → readerHolds rpc = false := by
    intro hh
    cases hrh : readerHolds rpc
    · rfl
    · exact absurd (h1.1 hrh) (by simp [hh])
  have hmine : holder = some .main → readerHolds rpc = false := by
    intro hh
    cases hrh : readerHolds rpc
    · rfl
    · exact absurd (h1.1 hrh) (by simp [hh])
  have hstay : ∀ pc, mainHolds pc = true → mainHolds mpc = true →
      LockInv ⟨rpc, pc, holder, dr, ex, false, w⟩ := by
    intro pc hpc hm
    exact ⟨h1, ⟨fun _ => h2.1 hm, fun _ => hpc⟩, h3, rfl, h5⟩
  have hout : ∀ pc, mainHolds pc = false → mainHolds mpc = false →
      LockInv ⟨rpc, pc, holder, dr, ex, false, w⟩ := by
    intro pc hpc hm
    refine ⟨h1, ⟨fun hc => ?_, fun hc => ?_⟩, h3, rfl, h5⟩
    · rw [hpc] at hc
      exact absurd hc (by decide)
    · rw [h2.2 hc] at hm
      exact absurd hm (by decide)
  have htake : ∀ pc, mainHolds pc = true → holder = none →
      LockInv ⟨rpc, pc, some .main, dr, ex, false, w⟩ := by
    intro pc hpc hh
    refine ⟨?_, ⟨fun _ => rfl, fun _ => hpc⟩, h3, rfl, h5⟩
    rw [hfree hh]
    simp
  have hgive : ∀ pc, mainHolds pc = false → holder = some .main →
      LockInv ⟨rpc, pc, none, dr, ex, false, w⟩ := by
    intro pc hpc hh
    refine ⟨?_, ?_, h3, rfl, h5⟩
    · rw [hmine hh]
      simp
    · rw [hpc]
      simp
  cases mpc
  case lock0 =>
    by_cases hh : holder = none
    · have e : stepMain ⟨rpc, .lock0, holder, dr, ex, false, w⟩
          = ⟨rpc, .test, some .main, dr, ex, false, w⟩ := by
        simp [stepMain, hh]
      rw [e]
      exact htake _ rfl hh
    · have e : stepMain ⟨rpc, .lock0, holder, dr, ex, false, w⟩
          = ⟨rpc, .lock0, holder, dr, ex, false, w⟩ := by
        simp [stepMain, hh]
      rw [e]
      exact ⟨h1, h2, h3, rfl, h5⟩
  case test =>
    by_cases hd : dr = 0
    · have e : stepMain ⟨rpc, .test, holder, dr, ex, false, w⟩
          = ⟨rpc, .wait, holder, dr, ex, false, w⟩ := by
        simp [stepMain, hd]
      rw [e]
      exact hstay _ rfl rfl
    · have e : stepMain ⟨rpc, .test, holder, dr, ex, false, w⟩
          = ⟨rpc, .compute, holder, dr, ex, false, w⟩ := by
        simp [stepMain, hd]
      rw [e]
      exact hstay _ rfl rfl
  case wait =>
    have hh : holder = some .main := h2.1 rfl
    have e : stepMain ⟨rpc, .wait, holder, dr, ex, false, w⟩
        = ⟨rpc, .waiting, none, dr, ex, false, w⟩ := by
      simp [stepMain, hh]
    rw [e]
    exact hgive _ rfl hh
  case waiting =>
    by_cases hh : holder = none
    · have e : stepMain ⟨rpc, .waiting, holder, dr, ex, false, w⟩
          = ⟨rpc, .test, some .main, dr, ex, false, w⟩ := by
        simp [stepMain, hh]
      rw [e]
      exact htake _ rfl hh
    · have e : stepMain ⟨rpc, .waiting, holder, dr, ex, false, w⟩
          = ⟨rpc, .waiting, holder, dr, ex, false, w⟩ := by
        simp [stepMain, hh]
      rw [e]
      exact ⟨h1, h2, h3, rfl, h5⟩
  case compute =>
    exact hstay _ rfl rfl
  case clearReady =>
    have hh : holder = some .main := h2.1 rfl
    refine ⟨h1, ⟨fun _ => hh, fun _ => rfl⟩, Or.inl rfl, rfl, ?_⟩
    intro e he
    simp only [stepMain, List.mem_append, List.mem_singleton] at he
    rcases he with he | he
    · exact h5 e he
    · subst he
      exact hh
  case signal =>
    exact hstay _ rfl rfl
  case unlock =>
    have hh : holder = some .main := h2.1 rfl
    have e : stepMain ⟨rpc, .unlock, holder, dr, ex, false, w⟩
        = ⟨rpc, .detect, none, dr, ex, false, w⟩ := by
      simp [stepMain, hh]
    rw [e]
    exact hgive _ rfl hh
  case detect =>
    exact hout _ rfl rfl
  case background =>
    exact hout _ rfl rfl
  case lock1 =>
    by_cases hh : holder = none
    · have e : stepMain ⟨rpc, .lock1, holder, dr, ex, false, w⟩
          = ⟨rpc, .checkExit, some .main, dr, ex, false, w⟩ := by
        simp [stepMain, hh]
      rw [e]
      exact htake _ rfl hh
    · have e : stepMain ⟨rpc, .lock1, holder, dr, ex, false, w⟩
          = ⟨rpc, .lock1, holder, dr, ex, false, w⟩ := by
        simp [stepMain, hh]
      rw [e]
      exact ⟨h1, h2, h3, rfl, h5⟩
  case checkExit =>
    by_cases hd : ex = 0
    · have e : stepMain ⟨rpc, .checkExit, holder, dr, ex, false, w⟩
          = ⟨rpc, .test, holder, dr, ex, false, w⟩ := by
        simp [stepMain, hd]
      rw [e]
      exact hstay _ rfl rfl
    · have e : stepMain ⟨rpc, .checkExit, holder, dr, ex, false, w⟩
          = ⟨rpc, .close, holder, dr, ex, false, w⟩ := by
        simp [stepMain, hd]
      rw [e]
      exact hstay _ rfl rfl
  case close =>
    exact hstay _ rfl rfl
  case done =>
    exact hstay _ rfl rfl

theorem runThreads_lockInv (sched : List Thread) :
    ∀ s, LockInv s → LockInv (runThreads s sched) := by
  induction sched with
  | nil => intro s h; exact h
  | cons t ts ih =>
    intro s h
    have hstep : LockInv (stepThread s t) := by
      cases t
      · exact stepReader_lockInv s h
      · exact stepMain_lockInv s h
    exact ih _ hstep

/-- A run of the model: `main` locks, finds no data and waits; the callback runs from
lock to unlock (a step of `main` in between leaves it waiting); `main` wakes, computes
the magnitudes, clears the flag and unlocks. Four writes are recorded, each by the
holder of the mutex. -/
theorem runThreads_handoff :
    runThreads Coordinator.init
        [.main, .main, .main, .reader, .reader, .main, .reader, .reader, .reader, .reader,
         .reader, .main, .main, .main, .main, .main, .main]
      = { rpc := .idle, mpc := .detect, holder := none, data_ready := 0, exit := 0,
          misuse := false,
          writes := [⟨.reader, .data, some .reader⟩, ⟨.reader, .data, some .reader⟩,
                     ⟨.reader, .data_ready, some .reader⟩,
                     ⟨.main, .data_ready, some .main⟩] } := by
  decide

/-! ## Claims on the two threads -/

/-- Claim C16. In every interleaving of the reader thread and the processing loop of
`main`, every write to `ctx.data` and to `ctx.data_ready` is made by the thread that
holds `data_mutex` at that moment, the flag `data_ready` of the one buffer is 0 or 1, the
two threads are never both between a lock and its unlock, and no thread unlocks or waits
on a mutex it does not hold. -/
theorem coordinator_exclusion (sched : List Thread) :
    (∀ e ∈ (runThreads Coordinator.init sched).writes, e.holder = some e.thread)
      ∧ ((runThreads Coordinator.init sched).data_ready = 0
          ∨ (runThreads Coordinator.init sched).data_ready = 1)
      ∧ ¬ (readerHolds (runThreads Coordinator.init sched).rpc = true
            ∧ mainHolds (runThreads Coordinator.init sched).mpc = true)
      ∧ (runThreads Coordinator.init sched).misuse = false := by
  obtain ⟨h1, h2, h3, h4, h5⟩ := runThreads_lockInv sched Coordinator.init lockInv_init
  refine ⟨h5, h3, ?_, h4⟩
  rintro ⟨hr, hm⟩
  have e1 := h1.1 hr
  have e2 := h2.1 hm
  rw [e1] at e2
  exact absurd e2 (by decide)

end Dump433
